import Mathlib

/-!
Executor launcher (`src/launcher/launcher.cpp`).

A shallow embedding of `ExecutorLauncher` and proofs about it.

* `std::string` values are lists of characters (`Str`); they may hold any
  character, NUL included.  A search returns a position or `npos`; where the
  source computes on `size_t` (the archive test) the arithmetic is modulo
  `2 ^ 64`.
* The operating system and the C library are an arbitrary record `OS σ` of
  call behaviours over an arbitrary world state `σ`; every theorem quantifies
  over it.  Each call the launcher makes is appended to a log of `Event`s.
* The process environment is explicit process state.  `setenv` is given C
  strings: the name and the value are cut at the first NUL, as `c_str()`
  hands them over.  It fails, setting nothing, on a name that is empty or
  holds `=`; the launcher ignores its result.  Memory is taken not to run
  out.
* `basename` is the one of `libgen.h`: it returns the name and may write into
  the buffer it is given, so it is a function from the buffer to the name and
  the buffer after the call.  The command of the HDFS block is handed to
  `system` as a C string, cut at the first NUL.  The other calls are recorded
  with the string they are made on; a string that holds no NUL is its own C
  string.
* `fatal` / `fatalerror` end the process: the rest of the procedure does
  not run.  `execl` ends the procedure too when it succeeds.
* Text written to `cout` is not part of the model.
-/

namespace Launcher

/-! ## Strings -/

/-- A `std::string`: a finite sequence of characters. -/
abbrev Str := List Char

/-- The value `string::npos`: what a search returns when nothing is found. -/
abbrev npos : Option Nat := none

/-- The backslash character. -/
def backslash : Char := Char.ofNat 92

/-- The single quote character. -/
def quote : Char := Char.ofNat 39

/-- The NUL character. -/
def NUL : Char := Char.ofNat 0

/-- Number of values of `size_t`. -/
def SIZE_RANGE : Nat := 2 ^ 64

/-- The machine value (`size_t`) of a search result: `npos` is the largest
`size_t`. -/
def sizeT : Option Nat → Nat
  | none => SIZE_RANGE - 1
  | some i => i % SIZE_RANGE

/-- Subtraction of two `size_t` values, which wraps around. -/
def sizeSub (a b : Nat) : Nat := (a % SIZE_RANGE + SIZE_RANGE - b % SIZE_RANGE) % SIZE_RANGE

/-- The value of `s.size()`. -/
def size (s : Str) : Nat := s.length % SIZE_RANGE

/-- The value of `strlen` on a string without NUL. -/
def strlen (s : Str) : Nat := s.length % SIZE_RANGE

/-- Search of `find_first_of` from index `i` on. -/
def find_first_of_from (chars : Str) : Str → Nat → Option Nat
  | [], _ => npos
  | c :: cs, i => if c ∈ chars then some i else find_first_of_from chars cs (i + 1)

/-- The call `s.find_first_of(chars)`: index of the first character of `s` that
is one of `chars`, or `npos`. -/
def find_first_of (s chars : Str) : Option Nat := find_first_of_from chars s 0

/-- Search of `find` from index `i` on. -/
def find_from (pat : Str) : Str → Nat → Option Nat
  | [], i => if pat = [] then some i else npos
  | c :: cs, i => if pat.isPrefixOf (c :: cs) then some i else find_from pat cs (i + 1)

/-- The call `s.find(pat)`: index of the first occurrence of `pat` in `s`, or
`npos`. -/
def find (s pat : Str) : Option Nat := find_from pat s 0

/-- Search of `rfind`: scans from index `i` on and keeps the last match. -/
def rfind_from (pat : Str) : Str → Nat → Option Nat → Option Nat
  | [], i, last => if pat = [] then some i else last
  | c :: cs, i, last =>
    rfind_from pat cs (i + 1) (if pat.isPrefixOf (c :: cs) then some i else last)

/-- The call `s.rfind(pat)`: index of the last occurrence of `pat` in `s`, or
`npos`. -/
def rfind (s pat : Str) : Option Nat := rfind_from pat s 0 npos

/-- The call `s.substr(pos)` for `pos` within the string. -/
def substr (s : Str) (pos : Nat) : Str := s.drop pos

/-- The scan of `split`: `token` holds the characters of the token being
read. -/
def splitFrom (delims : Str) : Str → Str → List Str
  | [], token => if token = [] then [] else [token]
  | c :: cs, token =>
    if c ∈ delims then
      if token = [] then splitFrom delims cs [] else token :: splitFrom delims cs []
    else splitFrom delims cs (token ++ [c])

/-- Modelled from the spec: `StringUtils::split` of `common/string_utils.hpp`,
which is not among the sources.  The launcher splits "the path into tokens
by /" and the spec creates "every path segment": the tokens are the
non-empty maximal runs of characters that are not delimiters, in order. -/
def split (str delims : Str) : List Str := splitFrom delims str []

/-! ## The operating system -/

/-- The environment of the process: variable names with their values, each
name at most once after a `setenv`. -/
abbrev Env := List (Str × Str)

/-- The call `getenv(name)`: the value of the variable, or NULL. -/
def getenv (env : Env) (name : Str) : Option Str :=
  (env.find? (fun kv => decide (kv.1 = name))).map Prod.snd

/-- The C string `s.c_str()` as a C function reads it: the characters before
the first NUL. -/
def c_str (s : Str) : Str := s.takeWhile (fun c => decide (c ≠ NUL))

/-- A name `setenv` accepts: not empty and without `=`. -/
def ValidName (name : Str) : Prop := name ≠ [] ∧ '=' ∉ name

instance (name : Str) : Decidable (ValidName name) := by
  unfold ValidName
  infer_instance

/-- The environment after `setenv(name, value, 1)` on C strings: the variable
is given the value, whatever it held before; on a name that is empty or holds
`=` the call fails (`EINVAL`) and the environment is left as it is. -/
def setenvOverwrite (env : Env) (name value : Str) : Env :=
  if ValidName name then (name, value) :: env.filter (fun kv => decide (kv.1 ≠ name))
  else env

/-- The two standard streams the launcher reopens. -/
inductive Stream where
  | stdout
  | stderr
  deriving DecidableEq, Repr

/-- The account record `getpwnam` returns. -/
structure Passwd where
  pw_uid : Nat
  pw_gid : Nat
  deriving DecidableEq, Repr

/-- A call made by the launcher, with its arguments. -/
inductive Event where
  | mkdir (path : Str) (mode : Nat)
  | chdir (path : Str)
  | freopen (path : Str) (mode : Str) (stream : Stream)
  | system (command : Str)
  | chmod (path : Str) (mode : Nat)
  | opendir (path : Str)
  | stat (path : Str)
  | setenv (name value : Str) (overwrite : Bool)
  | getpwnam (name : Str)
  | setgid (gid : Nat)
  | setuid (uid : Nat)
  | execl (path : Str) (args : List Str)
  deriving DecidableEq, Repr

/-- The behaviour of the operating system and C library over a world state
`σ`.  Calls that return an `int` return it as an `Int`. -/
structure OS (σ : Type) where
  /-- Returns the result and `errno`. -/
  mkdir : Str → Nat → σ → (Int × Nat) × σ
  chdir : Str → σ → Int × σ
  /-- Returns whether the stream was reopened (a non-NULL result). -/
  freopen : Str → Str → Stream → σ → Bool × σ
  system : Str → Env → σ → Int × σ
  chmod : Str → Nat → σ → Int × σ
  /-- Returns the entries `readdir` will yield, in order, or `none` when
  `opendir` returns NULL. -/
  opendir : Str → σ → Option (List Str)
  /-- Returns the result and `st_mode`. -/
  stat : Str → σ → Int × Nat
  getpwnam : Str → σ → Option Passwd
  setgid : Nat → σ → Int × σ
  setuid : Nat → σ → Int × σ
  /-- Returns whether the process image was replaced. -/
  execl : Str → List Str → Env → σ → Bool
  /-- Given the characters of the buffer, returns the name and the characters
  of the buffer after the call. -/
  basename : Str → Str × Str

/-- The error number `EEXIST`. -/
def EEXIST : Nat := 17

/-- The file type test `S_ISDIR` on an `st_mode`. -/
def S_ISDIR (mode : Nat) : Bool := mode &&& 0o170000 == 0o040000

/-- The mode bits of `sys/stat.h`. -/
def S_IRWXU : Nat := 0o700
def S_IRGRP : Nat := 0o040
def S_IXGRP : Nat := 0o010
def S_IROTH : Nat := 0o004
def S_IXOTH : Nat := 0o001

/-! ## Process state and results -/

/-- The kinds of fatal error.  The first twelve are those of the
specification; `ChmodFailed` and `ListFailed` are the two fatal exits of
`fetchExecutor` it has no name for. -/
inductive ErrorKind where
  | InvalidReference
  | DirectoryCreateFailed
  | ChdirFailed
  | IORedirectFailed
  | FetchFailed
  | ExtractFailed
  | NoExecutorDirectory
  | AmbiguousExecutorDirectory
  | StatFailed
  | UnknownUser
  | PrivilegeDropFailed
  | ExecFailed
  | ChmodFailed
  | ListFailed
  deriving DecidableEq, Repr

/-- A fatal exit: its kind, the format string of its message, and whether
the text of `errno` is appended (`fatalerror`) or not (`fatal`). -/
structure Fatal where
  kind : ErrorKind
  message : String
  withErrno : Bool
  deriving DecidableEq, Repr

/-- The state of the launcher process. -/
structure Proc (σ : Type) where
  world : σ
  env : Env
  log : List Event

/-- How a procedure ends: it returns a value, the process exits fatally, or
the process image has been replaced by `execl`. -/
inductive Result (σ α : Type) where
  | ok (a : α) (s : Proc σ)
  | fatal (f : Fatal) (s : Proc σ)
  | replaced (s : Proc σ)

/-- The process state a procedure ends in. -/
def Result.state {σ α : Type} : Result σ α → Proc σ
  | .ok _ s => s
  | .fatal _ s => s
  | .replaced s => s

/-- A procedure of the launcher. -/
def M (σ α : Type) : Type := Proc σ → Result σ α

/-- Sequencing: the second procedure runs only if the first returns. -/
def M.bind {σ α β : Type} (m : M σ α) (f : α → M σ β) : M σ β := fun s =>
  match m s with
  | .ok a s1 => f a s1
  | .fatal e s1 => .fatal e s1
  | .replaced s1 => .replaced s1

instance {σ : Type} : Monad (M σ) where
  pure a := fun s => .ok a s
  bind := M.bind

/-- Modelled from the spec: the macro `fatal` of `common/fatal.hpp`, which is
not among the sources.  "Every error is terminal": the message is printed
and the process exits, so nothing after the call runs. -/
def fatal {σ α : Type} (kind : ErrorKind) (message : String) : M σ α :=
  fun s => .fatal ⟨kind, message, false⟩ s

/-- Modelled from the spec: the macro `fatalerror` of `common/fatal.hpp`,
which is not among the sources.  As `fatal`, with the text of `errno` added
to the message. -/
def fatalerror {σ α : Type} (kind : ErrorKind) (message : String) : M σ α :=
  fun s => .fatal ⟨kind, message, true⟩ s

/-- Appends an event to the log. -/
def Proc.record {σ : Type} (s : Proc σ) (e : Event) : Proc σ :=
  { s with log := s.log ++ [e] }

/-- A call that changes the world and returns a value. -/
def call {σ α : Type} (e : Event) (f : σ → α × σ) : M σ α := fun s =>
  .ok (f s.world).1 { world := (f s.world).2, env := s.env, log := s.log ++ [e] }

/-- A call that only reads the world. -/
def query {σ α : Type} (e : Event) (f : σ → α) : M σ α := fun s =>
  .ok (f s.world) (s.record e)

/-- The call `setenv(name.c_str(), value.c_str(), overwrite)` with `overwrite`
non-zero, its result ignored. -/
def setenv {σ : Type} (name value : Str) : M σ Unit := fun s =>
  .ok () { world := s.world, env := setenvOverwrite s.env (c_str name) (c_str value),
           log := s.log ++ [Event.setenv (c_str name) (c_str value) true] }

/-- The call `execl(path, arg0, NULL)`: it returns only when it fails. -/
def execl {σ : Type} (os : OS σ) (path : Str) (args : List Str) : M σ Unit := fun s =>
  if os.execl path args s.env s.world then .replaced (s.record (Event.execl path args))
  else .ok () (s.record (Event.execl path args))

/-! ## The launcher -/

/-- The fields of `ExecutorLauncher`. -/
structure ExecutorLauncher where
  frameworkId : Str
  executorUri : Str
  user : Str
  workDirectory : Str
  slavePid : Str
  mesosHome : Str
  hadoopHome : Str
  redirectIO : Bool
  shouldSwitchUser : Bool
  /-- A `map<string, string>`, as its entries in iteration order. -/
  params : List (Str × Str)

/-- The loop of `createWorkingDirectory` over the remaining tokens. -/
def createWorkingDirectoryLoop {σ : Type} (os : OS σ) : List Str → Str → M σ Unit
  | [], _ => pure ()
  | token :: tokens, dir0 => do
    let dir := dir0 ++ token
    let r ← call (Event.mkdir dir 0o755) (os.mkdir dir 0o755)
    if r.1 < 0 ∧ r.2 ≠ EEXIST then
      fatalerror ErrorKind.DirectoryCreateFailed "Failed to mkdir %s"
    createWorkingDirectoryLoop os tokens (dir ++ "/".toList)

/-- The procedure `ExecutorLauncher::createWorkingDirectory`. -/
def createWorkingDirectory {σ : Type} (os : OS σ) (l : ExecutorLauncher) : M σ Unit :=
  let tokens := split l.workDirectory "/".toList
  let dir := if find_first_of l.workDirectory "/".toList = some 0 then "/".toList else "".toList
  createWorkingDirectoryLoop os tokens dir

/-- The call `getenv(name)` on the environment of the process. -/
def getenvM {σ : Type} (name : Str) : M σ (Option Str) := fun s =>
  .ok (getenv s.env name) s

/-- The call `system(command)`: the command runs with the environment of the
process. -/
def system {σ : Type} (os : OS σ) (command : Str) : M σ Int := fun s =>
  .ok (os.system command s.env s.world).1
    { world := (os.system command s.env s.world).2, env := s.env,
      log := s.log ++ [Event.system command] }

/-- The block of `fetchExecutor` run when the path begins with `hdfs://`:
it copies the file to `./basename` and returns that local name.  The call of
`basename` is made on the buffer of `executor`, which it may change before
the command is built. -/
def hdfsFetch {σ : Type} (os : OS σ) (l : ExecutorLauncher) (executor : Str) : M σ Str := do
  let hadoopScript ←
    if l.hadoopHome ≠ "".toList then
      pure (l.hadoopHome ++ "/bin/hadoop".toList)
    else do
      let home ← getenvM "HADOOP_HOME".toList
      match home with
      | some h => pure (h ++ "/bin/hadoop".toList)
      | none => pure "hadoop".toList
  let base := os.basename executor
  let executor := base.2
  let localFile := "./".toList ++ c_str base.1
  let command := hadoopScript ++ " fs -copyToLocal '".toList ++ executor
    ++ "' '".toList ++ localFile ++ "'".toList
  let ret ← system os (c_str command)
  if ret ≠ 0 then
    fatal ErrorKind.FetchFailed "HDFS copyToLocal failed: return code %d"
  let executor := localFile
  let r ← call
    (Event.chmod (c_str executor) (S_IRWXU ||| S_IRGRP ||| S_IXGRP ||| S_IROTH ||| S_IXOTH))
    (os.chmod (c_str executor) (S_IRWXU ||| S_IRGRP ||| S_IXGRP ||| S_IROTH ||| S_IXOTH))
  if r ≠ 0 then
    fatalerror ErrorKind.ChmodFailed "chmod failed"
  pure executor

/-- The `readdir` loop of `fetchExecutor` over the remaining entries, with
the variables `found` and `dirname`. -/
def readdirLoop {σ : Type} (os : OS σ) : List Str → Bool → Str → M σ (Bool × Str)
  | [], found, dirname => pure (found, dirname)
  | d_name :: ents, found, dirname =>
    if ".".toList ≠ d_name ∧ "..".toList ≠ d_name then do
      let info ← query (Event.stat d_name) (os.stat d_name)
      if info.1 = 0 then
        if S_ISDIR info.2 then do
          if found then
            fatal ErrorKind.AmbiguousExecutorDirectory
              "Executor .tgz must contain a single directory"
          readdirLoop os ents true d_name
        else
          readdirLoop os ents found dirname
      else
        fatalerror ErrorKind.StatFailed "Stat failed on %s"
    else
      readdirLoop os ents found dirname

/-- The test `executor.rfind(".tgz") == executor.size() - strlen(".tgz")`,
computed on `size_t`. -/
def tgzTest (executor : Str) : Bool :=
  sizeT (rfind executor ".tgz".toList) == sizeSub (size executor) (strlen ".tgz".toList)

/-- The block of `fetchExecutor` run when `tgzTest` holds: it extracts the
archive, looks for the single directory, enters it and returns
`./executor`. -/
def untar {σ : Type} (os : OS σ) (executor : Str) : M σ Str := do
  let command := "tar xzf '".toList ++ executor ++ "'".toList
  let ret ← system os command
  if ret ≠ 0 then
    fatal ErrorKind.ExtractFailed "Untar failed: return code %d"
  let dir ← query (Event.opendir ".".toList) (os.opendir ".".toList)
  match dir with
  | some ents => do
    let r ← readdirLoop os ents false "".toList
    if r.1 = false then
      fatal ErrorKind.NoExecutorDirectory "Executor .tgz must contain a single directory"
    let c ← call (Event.chdir r.2) (os.chdir r.2)
    if c < 0 then
      fatalerror ErrorKind.ChdirFailed "Chdir failed"
    pure "./executor".toList
  | none => fatalerror ErrorKind.ListFailed "Failed to list work directory"

/-- The procedure `ExecutorLauncher::fetchExecutor`. -/
def fetchExecutor {σ : Type} (os : OS σ) (l : ExecutorLauncher) : M σ Str := do
  let executor := l.executorUri
  if find_first_of executor [backslash] ≠ npos ∨
      find_first_of executor [quote] ≠ npos ∨
      find_first_of executor [NUL] ≠ npos then
    fatal ErrorKind.InvalidReference "Illegal characters in executor path"
  let executor ←
    if find executor "hdfs://".toList = some 0 then hdfsFetch os l executor
    else pure executor
  if tgzTest executor then untar os executor
  else pure executor

/-- The first part of `fetchExecutor`, up to the test for an archive: the
check of the reference and the copy from HDFS.  It returns the local file
name the archive test is made on. -/
def localExecutor {σ : Type} (os : OS σ) (l : ExecutorLauncher) : M σ Str := do
  let executor := l.executorUri
  if find_first_of executor [backslash] ≠ npos ∨
      find_first_of executor [quote] ≠ npos ∨
      find_first_of executor [NUL] ≠ npos then
    fatal ErrorKind.InvalidReference "Illegal characters in executor path"
  if find executor "hdfs://".toList = some 0 then hdfsFetch os l executor
  else pure executor

/-- The loop of `setupEnvVariablesFromParams` over the remaining entries. -/
def setupEnvVariablesLoop {σ : Type} : List (Str × Str) → M σ Unit
  | [] => pure ()
  | (key, value) :: rest => do
    if find key "env.".toList = some 0 then
      setenv (substr key (strlen "env.".toList)) value
    setupEnvVariablesLoop rest

/-- The procedure `ExecutorLauncher::setupEnvVariablesFromParams`. -/
def setupEnvVariablesFromParams {σ : Type} (l : ExecutorLauncher) : M σ Unit :=
  setupEnvVariablesLoop l.params

/-- The procedure `ExecutorLauncher::setupEnvironment`. -/
def setupEnvironment {σ : Type} (l : ExecutorLauncher) : M σ Unit := do
  setupEnvVariablesFromParams l
  setenv "MESOS_SLAVE_PID".toList l.slavePid
  setenv "MESOS_FRAMEWORK_ID".toList l.frameworkId
  setenv "LIBPROCESS_PORT".toList "0".toList
  if l.mesosHome ≠ "".toList then
    setenv "MESOS_HOME".toList l.mesosHome

/-- The procedure `ExecutorLauncher::switchUser`. -/
def switchUser {σ : Type} (os : OS σ) (l : ExecutorLauncher) : M σ Unit := do
  let passwd ← query (Event.getpwnam l.user) (os.getpwnam l.user)
  match passwd with
  | none => fatal ErrorKind.UnknownUser "failed to get username information for %s"
  | some pw => do
    let g ← call (Event.setgid pw.pw_gid) (os.setgid pw.pw_gid)
    if g < 0 then
      fatalerror ErrorKind.PrivilegeDropFailed "failed to setgid"
    let u ← call (Event.setuid pw.pw_uid) (os.setuid pw.pw_uid)
    if u < 0 then
      fatalerror ErrorKind.PrivilegeDropFailed "failed to setuid"

/-- The procedure `ExecutorLauncher::setupEnvironmentForLauncherMain`. -/
def setupEnvironmentForLauncherMain {σ : Type} (l : ExecutorLauncher) : M σ Unit := do
  setupEnvironment l
  setenv "MESOS_FRAMEWORK_ID".toList l.frameworkId
  setenv "MESOS_EXECUTOR_URI".toList l.executorUri
  setenv "MESOS_USER".toList l.user
  setenv "MESOS_WORK_DIRECTORY".toList l.workDirectory
  setenv "MESOS_SLAVE_PID".toList l.slavePid
  setenv "MESOS_HOME".toList l.mesosHome
  setenv "MESOS_HADOOP_HOME".toList l.hadoopHome
  setenv "MESOS_REDIRECT_IO".toList (if ExecutorLauncher.redirectIO l then "1".toList else "0".toList)
  setenv "MESOS_SWITCH_USER".toList (if l.shouldSwitchUser then "1".toList else "0".toList)

/-- The redirection of the output streams in `run`. -/
def redirectOutput {σ : Type} (os : OS σ) : M σ Unit := do
  let out ← call (Event.freopen "stdout".toList "w".toList Stream.stdout)
    (os.freopen "stdout".toList "w".toList Stream.stdout)
  if out = false then
    fatalerror ErrorKind.IORedirectFailed "freopen failed"
  let err ← call (Event.freopen "stderr".toList "w".toList Stream.stderr)
    (os.freopen "stderr".toList "w".toList Stream.stderr)
  if err = false then
    fatalerror ErrorKind.IORedirectFailed "freopen failed"

/-- The procedure `ExecutorLauncher::run`.  It never returns: it ends in a
fatal exit or with the process image replaced. -/
def run {σ : Type} (os : OS σ) (l : ExecutorLauncher) : M σ Unit := do
  createWorkingDirectory os l
  let c ← call (Event.chdir l.workDirectory) (os.chdir l.workDirectory)
  if c < 0 then
    fatalerror ErrorKind.ChdirFailed "chdir into framework working directory failed"
  if ExecutorLauncher.redirectIO l then
    redirectOutput os
  let executor ← fetchExecutor os l
  setupEnvironment l
  if l.shouldSwitchUser then
    switchUser os l
  execl os executor [executor]
  fatalerror ErrorKind.ExecFailed "Could not execute %s"

/-- The cumulative paths of a working directory: with `tokens` its
segments and `lead` the leading separator or nothing, the `k`-th path is
`lead` followed by the first `k` segments joined by `/`. -/
def cumulativePaths (lead : Str) (tokens : List Str) : List Str :=
  (List.range tokens.length).map
    (fun k => lead ++ "/".toList.intercalate (tokens.take (k + 1)))

/-- The directories among the entries other than `.` and `..`, in the order
of the listing. -/
def candidates {σ : Type} (os : OS σ) (w : σ) (ents : List Str) : List Str :=
  ents.filter (fun e => decide (e ≠ ".".toList) && decide (e ≠ "..".toList) &&
    S_ISDIR (os.stat e w).2)

/-- The `stat` calls on the entries other than `.` and `..`, in the order of
the listing. -/
def statCalls (ents : List Str) : List Event :=
  (ents.filter (fun e => decide (e ≠ ".".toList) && decide (e ≠ "..".toList))).map Event.stat

/-- Whether an event is a `stat` call. -/
def Event.isStat : Event → Bool
  | .stat _ => true
  | _ => false

/-- Whether an event is a `chdir` call. -/
def Event.isChdir : Event → Bool
  | .chdir _ => true
  | _ => false

/-- The result with its log left out: the value or the fatal exit, the world
and the environment. -/
def Result.forgetLog {σ α : Type} : Result σ α → Result σ α
  | .ok a s => .ok a ⟨s.world, s.env, []⟩
  | .fatal f s => .fatal f ⟨s.world, s.env, []⟩
  | .replaced s => .replaced ⟨s.world, s.env, []⟩

/-- A launcher whose executor is the local file `./x`: three characters,
no `hdfs://` in front and no `.tgz` at the end. -/
def shortPathLauncher : ExecutorLauncher where
  frameworkId := "framework-1".toList
  executorUri := "./x".toList
  user := "alice".toList
  workDirectory := "/tmp/work".toList
  slavePid := "slave@10.0.0.1:5051".toList
  mesosHome := "".toList
  hadoopHome := "".toList
  redirectIO := false
  shouldSwitchUser := false
  params := []

/-- A launcher whose parameters name the free-port variable. -/
def portLauncher : ExecutorLauncher where
  frameworkId := "framework-1".toList
  executorUri := "/bin/true".toList
  user := "alice".toList
  workDirectory := "/tmp/work".toList
  slavePid := "slave@10.0.0.1:5051".toList
  mesosHome := "".toList
  hadoopHome := "".toList
  redirectIO := false
  shouldSwitchUser := false
  params := [("env.LIBPROCESS_PORT".toList, "5050".toList)]

/-- A process state with an empty environment and an empty log. -/
def emptyProc {σ : Type} (w : σ) : Proc σ := ⟨w, [], []⟩

/-- The fields a downstream process reads back from its environment. -/
structure LaunchFields where
  frameworkId : Str
  executorUri : Str
  user : Str
  workDirectory : Str
  slavePid : Str
  mesosHome : Str
  hadoopHome : Str
  redirectIO : Bool
  shouldSwitchUser : Bool
  deriving DecidableEq, Repr

/-- The nine fields of a launcher that are exported. -/
def ExecutorLauncher.fields (l : ExecutorLauncher) : LaunchFields :=
  ⟨l.frameworkId, l.executorUri, l.user, l.workDirectory, l.slavePid, l.mesosHome,
    l.hadoopHome, ExecutorLauncher.redirectIO l, l.shouldSwitchUser⟩

/-- Reading of a flag: `1` is true and `0` is false. -/
def readFlag (value : Str) : Option Bool :=
  if value = "1".toList then some true
  else if value = "0".toList then some false
  else none

/-- The reading back of the export-only environment, as the specification
describes it: each of the nine variables is read with `getenv`, the two flags
as `1` or `0`.  It stands for the downstream process, which is not among the
sources. -/
def readBack (env : Env) : Option LaunchFields := do
  let frameworkId ← getenv env "MESOS_FRAMEWORK_ID".toList
  let executorUri ← getenv env "MESOS_EXECUTOR_URI".toList
  let user ← getenv env "MESOS_USER".toList
  let workDirectory ← getenv env "MESOS_WORK_DIRECTORY".toList
  let slavePid ← getenv env "MESOS_SLAVE_PID".toList
  let mesosHome ← getenv env "MESOS_HOME".toList
  let hadoopHome ← getenv env "MESOS_HADOOP_HOME".toList
  let redirect ← (getenv env "MESOS_REDIRECT_IO".toList).bind readFlag
  let switch ← (getenv env "MESOS_SWITCH_USER".toList).bind readFlag
  pure ⟨frameworkId, executorUri, user, workDirectory, slavePid, mesosHome, hadoopHome,
    redirect, switch⟩

/-- The part of a path after its last `/`: the whole path when it holds
none. -/
def lastComponent (path : Str) : Str :=
  (path.reverse.takeWhile (fun c => decide (c ≠ '/'))).reverse

/-- The `basename` of `libgen.h` as the GNU C library has it, on the buffer of
a string: the name, and the buffer after the call.  An empty path gives `.`
and a path of separators only gives `/`.  On a path that ends in a separator
a NUL is written over the first of the trailing separators, and the name is
the last component before it.  Otherwise the name is what follows the last
separator and the buffer is left as it is. -/
def xpg_basename (buffer : Str) : Str × Str :=
  let filename := c_str buffer
  if filename = [] then (".".toList, buffer)
  else if filename.getLast? ≠ some '/' then (lastComponent filename, buffer)
  else
    let stripped := (filename.reverse.dropWhile (fun c => decide (c = '/'))).reverse
    if stripped = [] then ("/".toList, buffer)
    else (lastComponent stripped, stripped ++ [NUL] ++ buffer.drop (stripped.length + 1))

/-- A small simulated system.  The world is the list of the directories
that exist.  `mkdir` fails with `EEXIST` on a directory that exists and
creates it otherwise; `chdir` needs the directory to exist; a `tar` command
creates the directory `pkg`; every other command succeeds and changes nothing;
the current directory lists `.`, `..`, the file `pkg.tgz` and the directories
with a one-segment name; the only account is `alice`; `execl` succeeds;
`basename` is that of the GNU C library. -/
def simOS : OS (List Str) where
  mkdir path _ w := if path ∈ w then ((-1, EEXIST), w) else ((0, 0), w ++ [path])
  chdir path w := (if path ∈ w then 0 else -1, w)
  freopen _ _ _ w := (true, w)
  system command _ w :=
    if "tar xzf ".toList.isPrefixOf command then (0, w ++ ["pkg".toList]) else (0, w)
  chmod _ _ w := (0, w)
  opendir _ w :=
    some (".".toList :: "..".toList :: "pkg.tgz".toList :: w.filter (fun d => decide ('/' ∉ d)))
  stat path w := if path ∈ w then (0, 0o040755) else (0, 0o100644)
  getpwnam name _ := if name = "alice".toList then some ⟨1000, 1000⟩ else none
  setgid _ w := (0, w)
  setuid _ w := (0, w)
  execl _ _ _ _ := true
  basename := xpg_basename

/-- The simulated system with every `chdir` refused. -/
def lockedOS : OS (List Str) := { simOS with chdir := fun _ w => (-1, w) }

/-- A launcher whose executor is the local archive `pkg.tgz`. -/
def archiveLauncher : ExecutorLauncher where
  frameworkId := "framework-1".toList
  executorUri := "pkg.tgz".toList
  user := "alice".toList
  workDirectory := "/tmp/work".toList
  slavePid := "slave@10.0.0.1:5051".toList
  mesosHome := "/opt/mesos".toList
  hadoopHome := "".toList
  redirectIO := false
  shouldSwitchUser := true
  params := [("env.FOO".toList, "bar".toList), ("other".toList, "x".toList),
    ("env.EMPTY".toList, "".toList)]

/-- A launcher whose executor is an archive on HDFS. -/
def hdfsLauncher : ExecutorLauncher where
  frameworkId := "framework-1".toList
  executorUri := "hdfs://store/pkg.tgz".toList
  user := "nosuchuser".toList
  workDirectory := "/var/work/f1".toList
  slavePid := "slave@10.0.0.1:5051".toList
  mesosHome := "".toList
  hadoopHome := "/opt/hadoop".toList
  redirectIO := true
  shouldSwitchUser := true
  params := []

/-- The part of `run` between the making of the working directory and the
fetching of the executor: the working directory is entered, and the output
redirected if asked. -/
def enterWorkingDirectory {σ : Type} (os : OS σ) (l : ExecutorLauncher) : M σ Unit := do
  let c ← call (Event.chdir l.workDirectory) (os.chdir l.workDirectory)
  if c < 0 then
    fatalerror ErrorKind.ChdirFailed "chdir into framework working directory failed"
  if ExecutorLauncher.redirectIO l then
    redirectOutput os

/-- The privilege drop of `run`: `switchUser` when asked, nothing otherwise. -/
def dropPrivileges {σ : Type} (os : OS σ) (l : ExecutorLauncher) : M σ Unit :=
  if l.shouldSwitchUser then switchUser os l else pure ()

/-- The last part of `run`: the `execl` call, fatal when it returns. -/
def execute {σ : Type} (os : OS σ) (executor : Str) : M σ Unit := do
  execl os executor [executor]
  fatalerror ErrorKind.ExecFailed "Could not execute %s"

/-- Whether an event is one of the first part of `run` after the `mkdir`
calls: a `chdir` or a `freopen`. -/
def Event.isEnter : Event → Bool
  | .chdir _ => true
  | .freopen _ _ _ => true
  | _ => false

/-- Whether an event is an `execl` call. -/
def Event.isExecl : Event → Bool
  | .execl _ _ => true
  | _ => false

/-- Whether an event is a `system` call: the copy from HDFS or the
extraction. -/
def Event.isSystem : Event → Bool
  | .system _ => true
  | _ => false

/-- A launcher whose reference holds a backslash, in front of `hdfs://` and
`.tgz` all the same. -/
def backslashLauncher : ExecutorLauncher where
  frameworkId := "framework-1".toList
  executorUri := "hdfs://store/a".toList ++ [backslash] ++ "b.tgz".toList
  user := "alice".toList
  workDirectory := "/tmp/work".toList
  slavePid := "slave@10.0.0.1:5051".toList
  mesosHome := "".toList
  hadoopHome := "".toList
  redirectIO := false
  shouldSwitchUser := false
  params := []

/-! ## Definitions used in the statements and proofs -/

/-- A launcher with the given parameters. -/
def paramsLauncher (params : List (Str × Str)) : ExecutorLauncher :=
  { portLauncher with params := params }

/-- A launcher whose user holds a NUL: `a`, NUL, `b`. -/
def nulUserLauncher : ExecutorLauncher :=
  { portLauncher with user := "a".toList ++ [NUL] ++ "b".toList }

/-- The procedure `m` only appends to the log, and every event it appends
satisfies `P`. -/
def Appends {σ α : Type} (P : Event → Prop) (m : M σ α) : Prop :=
  ∀ s : Proc σ, ∃ evs : List Event, (m s).state.log = s.log ++ evs ∧ ∀ e ∈ evs, P e

/-- Whether an event is a call `fetchExecutor` can make. -/
def Event.isFetch : Event → Bool
  | .system _ => true
  | .chmod _ _ => true
  | .opendir _ => true
  | .stat _ => true
  | .chdir _ => true
  | _ => false

/-- Whether an event is a `setenv` call. -/
def Event.isSetenv : Event → Bool
  | .setenv _ _ _ => true
  | _ => false

/-- Whether an event is a call `switchUser` can make. -/
def Event.isSwitchUser : Event → Bool
  | .getpwnam _ => true
  | .setgid _ => true
  | .setuid _ => true
  | _ => false

/-- Whether an event is a `mkdir` call. -/
def Event.isMkdir : Event → Bool
  | .mkdir _ _ => true
  | _ => false

/-- The paths `createWorkingDirectoryLoop` calls `mkdir` on, from the
directory `dir0` built so far. -/
def pathsFrom (dir0 : Str) : List Str → List Str
  | [] => []
  | token :: tokens => (dir0 ++ token) :: pathsFrom (dir0 ++ token ++ "/".toList) tokens

/-- The calls of `mkdir` on each path in turn, stopping at the first result
that is neither success nor `EEXIST`. -/
def mkdirEach {σ : Type} (os : OS σ) : List Str → M σ Unit
  | [] => pure ()
  | path :: paths => do
    let r ← call (Event.mkdir path 0o755) (os.mkdir path 0o755)
    if r.1 < 0 ∧ r.2 ≠ EEXIST then
      fatalerror ErrorKind.DirectoryCreateFailed "Failed to mkdir %s"
    mkdirEach os paths

/-- Whether an event is a `setgid` call. -/
def Event.isSetgid : Event → Bool
  | .setgid _ => true
  | _ => false

/-- Whether an event is a `setuid` call. -/
def Event.isSetuid : Event → Bool
  | .setuid _ => true
  | _ => false

/-- The events are those of successive stages: a first run of events of the
first kind, then a run of the second kind, and so on. -/
def InStages : List (Event → Prop) → List Event → Prop
  | [], evs => evs = []
  | P :: Ps, evs => ∃ l1 l2, evs = l1 ++ l2 ∧ (∀ e ∈ l1, P e) ∧ InStages Ps l2

/-- The procedure `m` only appends to the log, events of the successive
stages `Ps`. -/
def Staged {σ α : Type} (Ps : List (Event → Prop)) (m : M σ α) : Prop :=
  ∀ s : Proc σ, ∃ evs : List Event, (m s).state.log = s.log ++ evs ∧ InStages Ps evs

/-! ## Basic facts about sequencing -/

@[simp] theorem bind_apply {σ α β : Type} (m : M σ α) (f : α → M σ β) (s : Proc σ) :
    (m >>= f) s = match m s with
      | .ok a s1 => f a s1
      | .fatal e s1 => .fatal e s1
      | .replaced s1 => .replaced s1 := rfl

@[simp] theorem pure_apply {σ α : Type} (a : α) (s : Proc σ) :
    (pure a : M σ α) s = .ok a s := rfl

@[simp] theorem fatal_apply {σ α : Type} (k : ErrorKind) (msg : String) (s : Proc σ) :
    (fatal k msg : M σ α) s = .fatal ⟨k, msg, false⟩ s := rfl

@[simp] theorem fatalerror_apply {σ α : Type} (k : ErrorKind) (msg : String) (s : Proc σ) :
    (fatalerror k msg : M σ α) s = .fatal ⟨k, msg, true⟩ s := rfl

@[simp] theorem call_apply {σ α : Type} (e : Event) (f : σ → α × σ) (s : Proc σ) :
    call e f s = .ok (f s.world).1 ⟨(f s.world).2, s.env, s.log ++ [e]⟩ := rfl

@[simp] theorem query_apply {σ α : Type} (e : Event) (f : σ → α) (s : Proc σ) :
    query e f s = .ok (f s.world) ⟨s.world, s.env, s.log ++ [e]⟩ := rfl

@[simp] theorem setenv_apply {σ : Type} (name value : Str) (s : Proc σ) :
    (setenv name value : M σ Unit) s =
      .ok () ⟨s.world, setenvOverwrite s.env (c_str name) (c_str value),
        s.log ++ [Event.setenv (c_str name) (c_str value) true]⟩ := rfl

@[simp] theorem getenvM_apply {σ : Type} (name : Str) (s : Proc σ) :
    (getenvM name : M σ (Option Str)) s = .ok (getenv s.env name) s := rfl

@[simp] theorem system_apply {σ : Type} (os : OS σ) (command : Str) (s : Proc σ) :
    system os command s =
      .ok (os.system command s.env s.world).1
        ⟨(os.system command s.env s.world).2, s.env, s.log ++ [Event.system command]⟩ := rfl

@[simp] theorem state_ok {σ α : Type} (a : α) (s : Proc σ) :
    (Result.ok a s).state = s := rfl

@[simp] theorem state_fatal {σ α : Type} (f : Fatal) (s : Proc σ) :
    (Result.fatal f s : Result σ α).state = s := rfl

@[simp] theorem state_replaced {σ α : Type} (s : Proc σ) :
    (Result.replaced s : Result σ α).state = s := rfl

/-- The procedure `fetchExecutor` is its first part followed by the archive
block. -/
theorem fetchExecutor_eq {σ : Type} (os : OS σ) (l : ExecutorLauncher) :
    fetchExecutor os l =
      (localExecutor os l >>= fun executor =>
        if tgzTest executor then untar os executor else pure executor) := by
  funext s
  by_cases h1 : find_first_of l.executorUri [backslash] ≠ npos ∨
      find_first_of l.executorUri [quote] ≠ npos ∨
      find_first_of l.executorUri [NUL] ≠ npos
  · simp only [fetchExecutor, localExecutor, bind_apply, if_pos h1, fatal_apply]
  · by_cases h2 : find l.executorUri "hdfs://".toList = some 0
    · simp only [fetchExecutor, localExecutor, bind_apply, if_neg h1, pure_apply, if_pos h2]
    · simp only [fetchExecutor, localExecutor, bind_apply, if_neg h1, pure_apply, if_neg h2]

/-! ## What a procedure adds to the log -/

theorem appends_pure {σ α : Type} (P : Event → Prop) (a : α) : Appends P (pure a : M σ α) :=
  fun _ => ⟨[], by simp⟩

theorem appends_fatal {σ α : Type} (P : Event → Prop) (k : ErrorKind) (msg : String) :
    Appends P (fatal k msg : M σ α) :=
  fun _ => ⟨[], by simp⟩

theorem appends_fatalerror {σ α : Type} (P : Event → Prop) (k : ErrorKind) (msg : String) :
    Appends P (fatalerror k msg : M σ α) :=
  fun _ => ⟨[], by simp⟩

theorem appends_call {σ α : Type} (P : Event → Prop) (e : Event) (f : σ → α × σ) (h : P e) :
    Appends P (call e f) :=
  fun _ => ⟨[e], by simp [h]⟩

theorem appends_query {σ α : Type} (P : Event → Prop) (e : Event) (f : σ → α) (h : P e) :
    Appends P (query e f) :=
  fun _ => ⟨[e], by simp [h]⟩

theorem appends_system {σ : Type} (P : Event → Prop) (os : OS σ) (command : Str)
    (h : P (Event.system command)) : Appends P (system os command) :=
  fun _ => ⟨[Event.system command], by simp [h]⟩

theorem appends_setenv {σ : Type} (P : Event → Prop) (name value : Str)
    (h : P (Event.setenv (c_str name) (c_str value) true)) :
    Appends P (setenv name value : M σ Unit) :=
  fun _ => ⟨[Event.setenv (c_str name) (c_str value) true], by simp [h]⟩

theorem appends_getenvM {σ : Type} (P : Event → Prop) (name : Str) :
    Appends P (getenvM name : M σ (Option Str)) :=
  fun _ => ⟨[], by simp⟩

theorem appends_execl {σ : Type} (P : Event → Prop) (os : OS σ) (path : Str) (args : List Str)
    (h : P (Event.execl path args)) : Appends P (execl os path args) := by
  intro s
  refine ⟨[Event.execl path args], ?_, by simp [h]⟩
  unfold execl
  split <;> simp [Proc.record]

theorem appends_bind {σ α β : Type} {P : Event → Prop} {m : M σ α} {f : α → M σ β}
    (hm : Appends P m) (hf : ∀ a, Appends P (f a)) : Appends P (m >>= f) := by
  intro s
  obtain ⟨evs, hlog, hP⟩ := hm s
  rw [bind_apply]
  cases h : m s with
  | ok a s1 =>
    rw [h] at hlog
    obtain ⟨evs2, hlog2, hP2⟩ := hf a s1
    refine ⟨evs ++ evs2, ?_, ?_⟩
    · simp only [state_ok] at hlog
      simp only [hlog2, hlog, List.append_assoc]
    · intro e he
      rcases List.mem_append.mp he with h1 | h1
      · exact hP e h1
      · exact hP2 e h1
  | fatal e s1 =>
    rw [h] at hlog
    exact ⟨evs, hlog, hP⟩
  | replaced s1 =>
    rw [h] at hlog
    exact ⟨evs, hlog, hP⟩

theorem appends_ite {σ α : Type} {P : Event → Prop} (c : Prop) [Decidable c] {m1 m2 : M σ α}
    (h1 : Appends P m1) (h2 : Appends P m2) : Appends P (if c then m1 else m2) := by
  split
  · exact h1
  · exact h2

theorem appends_mono {σ α : Type} {P Q : Event → Prop} {m : M σ α}
    (h : Appends P m) (hPQ : ∀ e, P e → Q e) : Appends Q m := by
  intro s
  obtain ⟨evs, hlog, hP⟩ := h s
  exact ⟨evs, hlog, fun e he => hPQ e (hP e he)⟩

theorem readdirLoop_appends {σ : Type} (os : OS σ) (ents : List Str) (found : Bool)
    (dirname : Str) :
    Appends (fun e => e.isFetch = true) (readdirLoop os ents found dirname) := by
  induction ents generalizing found dirname with
  | nil => exact appends_pure _ _
  | cons d ents ih =>
    unfold readdirLoop
    dsimp only
    repeat' first
      | exact ih _ _
      | exact appends_pure _ _
      | exact appends_fatal _ _ _
      | exact appends_fatalerror _ _ _
      | exact appends_query _ _ _ rfl
      | apply appends_bind
      | apply appends_ite
      | intro _

/-- A procedure that begins with `system` logs that call first. -/
theorem bind_system_log {σ α : Type} (os : OS σ) (command : Str) (k : Int → M σ α)
    (P : Event → Prop) (hk : ∀ r, Appends P (k r)) (s : Proc σ) :
    ∃ rest, ((system os command >>= k) s).state.log = s.log ++ Event.system command :: rest ∧
      ∀ e ∈ rest, P e := by
  rw [bind_apply, system_apply]
  obtain ⟨evs, hlog, hP⟩ := hk (os.system command s.env s.world).1
    ⟨(os.system command s.env s.world).2, s.env, s.log ++ [Event.system command]⟩
  refine ⟨evs, ?_, hP⟩
  simp only [hlog, List.append_assoc, List.cons_append, List.nil_append]

/-- The archive block logs `tar xzf` on the file first, then only calls of
`fetchExecutor`. -/
theorem untar_log {σ : Type} (os : OS σ) (executor : Str) (s : Proc σ) :
    ∃ rest, (untar os executor s).state.log =
        s.log ++ Event.system ("tar xzf '".toList ++ executor ++ "'".toList) :: rest ∧
      ∀ e ∈ rest, e.isFetch = true := by
  unfold untar
  dsimp only
  apply bind_system_log
  intro ret
  refine appends_ite _ ?_ ?_ <;>
  · refine appends_bind (by first | exact appends_fatal _ _ _ | exact appends_pure _ _) (fun _ => ?_)
    refine appends_bind (appends_query _ _ _ rfl) (fun dir => ?_)
    cases dir with
    | none => exact appends_fatalerror _ _ _
    | some ents =>
      dsimp only
      refine appends_bind (readdirLoop_appends _ _ _ _) (fun r => ?_)
      repeat' first
        | exact appends_pure _ _
        | exact appends_fatal _ _ _
        | exact appends_fatalerror _ _ _
        | exact appends_call _ _ _ rfl
        | apply appends_bind
        | apply appends_ite
        | intro _

theorem untar_appends {σ : Type} (os : OS σ) (executor : Str) :
    Appends (fun e => e.isFetch = true) (untar os executor) := by
  intro s
  obtain ⟨rest, hlog, hP⟩ := untar_log os executor s
  refine ⟨_, hlog, ?_⟩
  intro e he
  rcases List.mem_cons.mp he with h | h
  · rw [h]
    rfl
  · exact hP e h

theorem hdfsFetch_appends {σ : Type} (os : OS σ) (l : ExecutorLauncher) (executor : Str) :
    Appends (fun e => e.isFetch = true) (hdfsFetch os l executor) := by
  unfold hdfsFetch
  dsimp only
  repeat' first
    | exact appends_pure _ _
    | exact appends_fatal _ _ _
    | exact appends_fatalerror _ _ _
    | exact appends_getenvM _ _
    | exact appends_call _ _ _ rfl
    | exact appends_system _ _ _ rfl
    | apply appends_bind
    | apply appends_ite
    | intro _
    | split

theorem localExecutor_appends {σ : Type} (os : OS σ) (l : ExecutorLauncher) :
    Appends (fun e => e.isFetch = true) (localExecutor os l) := by
  unfold localExecutor
  dsimp only
  repeat' first
    | exact hdfsFetch_appends _ _ _
    | exact appends_pure _ _
    | exact appends_fatal _ _ _
    | apply appends_bind
    | apply appends_ite
    | intro _

theorem fetchExecutor_appends {σ : Type} (os : OS σ) (l : ExecutorLauncher) :
    Appends (fun e => e.isFetch = true) (fetchExecutor os l) := by
  rw [fetchExecutor_eq]
  refine appends_bind (localExecutor_appends os l) (fun executor => ?_)
  exact appends_ite _ (untar_appends os executor) (appends_pure _ _)

/-! ## Facts about the string searches -/

theorem find_first_of_from_eq_none (chars s : Str) (i : Nat) :
    find_first_of_from chars s i = none ↔ ∀ c ∈ s, c ∉ chars := by
  induction s generalizing i with
  | nil => simp [find_first_of_from]
  | cons c cs ih =>
    by_cases h : c ∈ chars
    · simp [find_first_of_from, h]
    · simp [find_first_of_from, h, ih]

/-- A search for one character finds it exactly when the string holds it. -/
theorem find_first_of_char_ne_npos (s : Str) (c : Char) :
    find_first_of s [c] ≠ npos ↔ c ∈ s := by
  unfold find_first_of npos
  rw [Ne, find_first_of_from_eq_none]
  simp

theorem find_first_of_from_eq_some (chars s : Str) (i k : Nat) :
    find_first_of_from chars s i = some k → i ≤ k := by
  induction s generalizing i with
  | nil => simp [find_first_of_from]
  | cons c cs ih =>
    by_cases h : c ∈ chars
    · simp [find_first_of_from, h]
      omega
    · simp only [find_first_of_from, h, if_false]
      intro hk
      have := ih (i + 1) hk
      omega

/-- The search `find_first_of` returns 0 exactly when the first character
is one of those looked for. -/
theorem find_first_of_eq_zero (s chars : Str) :
    find_first_of s chars = some 0 ↔ ∃ c rest, s = c :: rest ∧ c ∈ chars := by
  cases s with
  | nil => simp [find_first_of, find_first_of_from]
  | cons c cs =>
    by_cases h : c ∈ chars
    · simp [find_first_of, find_first_of_from, h]
    · simp only [find_first_of, find_first_of_from, h, if_false]
      constructor
      · intro hk
        have := find_first_of_from_eq_some _ _ _ _ hk
        omega
      · rintro ⟨c1, rest, heq, hc⟩
        simp only [List.cons.injEq] at heq
        obtain ⟨rfl, rfl⟩ := heq
        exact absurd hc h

theorem find_from_eq_some (pat s : Str) (i k : Nat) :
    find_from pat s i = some k → i ≤ k := by
  induction s generalizing i with
  | nil =>
    by_cases h : pat = []
    · simp [find_from, h]
      omega
    · simp [find_from, h]
  | cons c cs ih =>
    by_cases h : pat.isPrefixOf (c :: cs) = true
    · simp [find_from, h]
      omega
    · simp only [find_from, h, if_false]
      intro hk
      have := ih (i + 1) hk
      omega

/-- The search `find` returns 0 exactly when the string begins with the
pattern. -/
theorem find_eq_zero (s pat : Str) : find s pat = some 0 ↔ pat <+: s := by
  cases s with
  | nil =>
    by_cases h : pat = []
    · simp [find, find_from, h]
    · simp [find, find_from, h]
  | cons c cs =>
    by_cases h : pat.isPrefixOf (c :: cs) = true
    · simp only [find, find_from, h, if_true, true_iff]
      exact List.isPrefixOf_iff_prefix.mp h
    · simp only [find, find_from, h, if_false]
      constructor
      · intro hk
        have := find_from_eq_some _ _ _ _ hk
        omega
      · intro hp
        exact absurd (List.isPrefixOf_iff_prefix.mpr hp) h

/-- What `rfind` returns is the match kept so far or the index of a match. -/
theorem rfind_from_sound (pat s : Str) (i : Nat) (last : Option Nat) (k : Nat)
    (h : rfind_from pat s i last = some k) :
    last = some k ∨ (i ≤ k ∧ k ≤ i + s.length ∧ pat <+: s.drop (k - i)) := by
  induction s generalizing i last with
  | nil =>
    by_cases hp : pat = []
    · simp only [rfind_from, if_pos hp, Option.some.injEq] at h
      subst h
      right
      simp [hp]
    · simp only [rfind_from, if_neg hp] at h
      exact Or.inl h
  | cons c cs ih =>
    rw [rfind_from] at h
    rcases ih _ _ h with h1 | ⟨h1, h2, h3⟩
    · by_cases hm : pat.isPrefixOf (c :: cs) = true
      · rw [if_pos hm, Option.some.injEq] at h1
        subst h1
        right
        refine ⟨Nat.le_refl _, by omega, ?_⟩
        rw [Nat.sub_self, List.drop_zero]
        exact List.isPrefixOf_iff_prefix.mp hm
      · rw [if_neg hm] at h1
        exact Or.inl h1
    · right
      refine ⟨by omega, by simp only [List.length_cons]; omega, ?_⟩
      have hk : k - i = (k - (i + 1)) + 1 := by omega
      rw [hk, List.drop_succ_cons]
      exact h3

/-- With a match kept, `rfind` returns it or a later index. -/
theorem rfind_from_some (pat s : Str) (i m : Nat) :
    ∃ k, rfind_from pat s i (some m) = some k ∧ (k = m ∨ i ≤ k) := by
  induction s generalizing i m with
  | nil =>
    by_cases hp : pat = []
    · exact ⟨i, by simp [rfind_from, hp], Or.inr (Nat.le_refl _)⟩
    · exact ⟨m, by simp [rfind_from, hp], Or.inl rfl⟩
  | cons c cs ih =>
    rw [rfind_from]
    by_cases hm : pat.isPrefixOf (c :: cs) = true
    · rw [if_pos hm]
      obtain ⟨k, hk, hk1⟩ := ih (i + 1) i
      exact ⟨k, hk, Or.inr (by omega)⟩
    · rw [if_neg hm]
      obtain ⟨k, hk, hk1⟩ := ih (i + 1) m
      exact ⟨k, hk, by omega⟩

/-- When the pattern occurs at an offset, `rfind` returns that index or a
later one. -/
theorem rfind_from_complete (pat s : Str) (i : Nat) (last : Option Nat) (j : Nat)
    (hj : j ≤ s.length) (hm : pat <+: s.drop j) :
    ∃ k, rfind_from pat s i last = some k ∧ i + j ≤ k := by
  induction s generalizing i last j with
  | nil =>
    simp only [List.drop_nil, List.prefix_nil] at hm
    exact ⟨i, by simp [rfind_from, hm], by simp at hj; omega⟩
  | cons c cs ih =>
    rw [rfind_from]
    cases j with
    | zero =>
      rw [List.drop_zero] at hm
      rw [if_pos (List.isPrefixOf_iff_prefix.mpr hm)]
      obtain ⟨k, hk, hk1⟩ := rfind_from_some pat cs (i + 1) i
      exact ⟨k, hk, by omega⟩
    | succ j1 =>
      rw [List.drop_succ_cons] at hm
      obtain ⟨k, hk, hk1⟩ := ih (i + 1) _ j1 (by simpa using hj) hm
      exact ⟨k, hk, by omega⟩

/-- The archive test of `fetchExecutor`, on a name shorter than `SIZE_RANGE`:
it holds exactly when the name ends in `.tgz` or has three characters. -/
theorem tgzTest_iff (executor : Str) (hlen : executor.length < SIZE_RANGE) :
    tgzTest executor = true ↔ (".tgz".toList <:+ executor ∨ executor.length = 3) := by
  have hpat : ".tgz".toList.length = 4 := by decide
  have hrange : SIZE_RANGE = 18446744073709551616 := by decide
  rw [hrange] at hlen
  have hval : sizeSub (size executor) (strlen ".tgz".toList) =
      if executor.length < 4 then executor.length + 18446744073709551616 - 4
      else executor.length - 4 := by
    unfold sizeSub size strlen
    rw [hpat, hrange]
    split <;> omega
  have hfound : ∀ k, rfind executor ".tgz".toList = some k →
      k + 4 ≤ executor.length ∧ ".tgz".toList <+: executor.drop k := by
    intro k hk
    rcases rfind_from_sound _ _ _ _ _ hk with h | ⟨_, _, h⟩
    · cases h
    · rw [Nat.sub_zero] at h
      have := h.length_le
      rw [hpat, List.length_drop] at this
      exact ⟨by omega, h⟩
  unfold tgzTest
  rw [beq_iff_eq, hval]
  by_cases hshort : executor.length < 4
  · rw [if_pos hshort]
    have hnone : rfind executor ".tgz".toList = none := by
      cases hr : rfind executor ".tgz".toList with
      | none => rfl
      | some k =>
        have := (hfound k hr).1
        omega
    have hsuf : ¬ ".tgz".toList <:+ executor := by
      intro h
      have := h.length_le
      rw [hpat] at this
      omega
    rw [hnone]
    simp only [sizeT, hrange]
    constructor
    · intro h
      right
      omega
    · rintro (h | h)
      · exact absurd h hsuf
      · omega
  · rw [if_neg hshort]
    constructor
    · intro h
      left
      cases hr : rfind executor ".tgz".toList with
      | none =>
        rw [hr] at h
        simp only [sizeT, hrange] at h
        omega
      | some k =>
        rw [hr] at h
        simp only [sizeT, hrange] at h
        obtain ⟨h2, h3⟩ := hfound k hr
        have hk : k = executor.length - 4 := by omega
        rw [hk] at h3
        have hdl : (executor.drop (executor.length - 4)).length = 4 := by
          rw [List.length_drop]
          omega
        have heq : ".tgz".toList = executor.drop (executor.length - 4) :=
          h3.eq_of_length (by rw [hpat, hdl])
        rw [heq]
        exact List.drop_suffix _ _
    · rintro (h | h)
      · obtain ⟨t, ht⟩ := h
        have htl : t.length = executor.length - 4 := by
          have := congrArg List.length ht
          rw [List.length_append, hpat] at this
          omega
        have hdrop : executor.drop (executor.length - 4) = ".tgz".toList := by
          rw [← htl, ← ht, List.drop_left]
        obtain ⟨k, hk, hk1⟩ := rfind_from_complete ".tgz".toList executor 0 npos
          (executor.length - 4) (by omega) (by rw [hdrop])
        have hk0 : rfind executor ".tgz".toList = some k := hk
        rw [hk0]
        simp only [sizeT, hrange]
        have := (hfound k hk0).1
        omega
      · omega

/-! ## Facts about `split` and the paths of `createWorkingDirectory` -/

theorem intercalate_cons_cons (sep t t2 : Str) (rest : List Str) :
    sep.intercalate (t :: t2 :: rest) = t ++ sep ++ sep.intercalate (t2 :: rest) := by
  simp [List.intercalate]

theorem cumulativePaths_cons (lead token : Str) (tokens : List Str) :
    cumulativePaths lead (token :: tokens) =
      (lead ++ token) :: cumulativePaths (lead ++ token ++ "/".toList) tokens := by
  unfold cumulativePaths
  rw [List.length_cons, List.range_succ_eq_map, List.map_cons, List.map_map]
  congr 1
  · simp [List.intercalate]
  · apply List.map_congr_left
    intro k hk
    have hk1 : k < tokens.length := List.mem_range.mp hk
    simp only [Function.comp, Nat.succ_eq_add_one, List.take_succ_cons]
    cases htk : tokens.take (k + 1) with
    | nil =>
      have := congrArg List.length htk
      rw [List.length_take, List.length_nil] at this
      omega
    | cons t2 rest =>
      rw [intercalate_cons_cons]
      simp only [List.append_assoc]

theorem pathsFrom_eq_cumulativePaths (lead : Str) (tokens : List Str) :
    pathsFrom lead tokens = cumulativePaths lead tokens := by
  induction tokens generalizing lead with
  | nil => rfl
  | cons t rest ih => rw [pathsFrom, cumulativePaths_cons, ih]

/-- The loop of `createWorkingDirectory` is `mkdirEach` on its paths. -/
theorem createWorkingDirectoryLoop_eq {σ : Type} (os : OS σ) (tokens : List Str) (dir0 : Str) :
    createWorkingDirectoryLoop os tokens dir0 = mkdirEach os (pathsFrom dir0 tokens) := by
  induction tokens generalizing dir0 with
  | nil => rfl
  | cons t rest ih =>
    rw [createWorkingDirectoryLoop, pathsFrom, mkdirEach]
    simp only [ih]

/-- The test for an absolute path holds exactly when the path begins with
the separator. -/
theorem leading_slash_iff (dir : Str) :
    find_first_of dir "/".toList = some 0 ↔ dir.head? = some '/' := by
  rw [find_first_of_eq_zero]
  constructor
  · rintro ⟨c, rest, hdir, hc⟩
    have hc1 : c = '/' := by simpa using hc
    rw [hdir, hc1]
    rfl
  · intro h
    cases dir with
    | nil => simp at h
    | cons c rest =>
      simp only [List.head?_cons, Option.some.injEq] at h
      exact ⟨c, rest, rfl, by rw [h]; decide⟩

/-- The procedure `createWorkingDirectory` is `mkdirEach` on the cumulative
paths of the segments. -/
theorem createWorkingDirectory_eq {σ : Type} (os : OS σ) (l : ExecutorLauncher) :
    createWorkingDirectory os l =
      mkdirEach os (cumulativePaths
        (if l.workDirectory.head? = some '/' then "/".toList else [])
        (split l.workDirectory "/".toList)) := by
  unfold createWorkingDirectory
  simp only [createWorkingDirectoryLoop_eq, pathsFrom_eq_cumulativePaths]
  by_cases h : l.workDirectory.head? = some '/'
  · rw [if_pos h, if_pos ((leading_slash_iff _).mpr h)]
  · rw [if_neg h, if_neg (fun h1 => h ((leading_slash_iff _).mp h1))]
    rfl

theorem candidates_cons_skip {σ : Type} (os : OS σ) (w : σ) (e : Str) (ents : List Str)
    (h : ¬ (".".toList ≠ e ∧ "..".toList ≠ e)) :
    candidates os w (e :: ents) = candidates os w ents ∧
      statCalls (e :: ents) = statCalls ents := by
  have h1 : (decide (e ≠ ".".toList) && decide (e ≠ "..".toList)) = false := by
    by_cases h2 : e = ".".toList
    · simp [h2]
    · by_cases h3 : e = "..".toList
      · simp [h3]
      · exact absurd ⟨fun h4 => h2 h4.symm, fun h4 => h3 h4.symm⟩ h
  constructor
  · unfold candidates
    rw [List.filter_cons_of_neg (by simp only [h1, Bool.false_and]; decide)]
  · unfold statCalls
    rw [List.filter_cons_of_neg (by simp only [h1]; decide)]

theorem candidates_cons_keep {σ : Type} (os : OS σ) (w : σ) (e : Str) (ents : List Str)
    (h : ".".toList ≠ e ∧ "..".toList ≠ e) :
    candidates os w (e :: ents) =
      (if S_ISDIR (os.stat e w).2 then e :: candidates os w ents else candidates os w ents) ∧
      statCalls (e :: ents) = Event.stat e :: statCalls ents := by
  have h1 : (decide (e ≠ ".".toList) && decide (e ≠ "..".toList)) = true := by
    simp only [Bool.and_eq_true, decide_eq_true_eq]
    exact ⟨fun h2 => h.1 h2.symm, fun h2 => h.2 h2.symm⟩
  constructor
  · unfold candidates
    by_cases hd : S_ISDIR (os.stat e w).2 = true
    · rw [if_pos hd, List.filter_cons_of_pos (by simp only [h1, hd, Bool.and_self])]
    · rw [if_neg hd, List.filter_cons_of_neg (by simp only [h1, hd, Bool.true_and]; decide)]
  · unfold statCalls
    rw [List.filter_cons_of_pos (by simp only [h1]), List.map_cons]

/-- With every entry readable by `stat` and at most one directory counted so
far and to come, the loop returns whether there is one, and which. -/
theorem readdirLoop_single {σ : Type} (os : OS σ) (ents : List Str) (found : Bool)
    (dirname : Str) (s : Proc σ)
    (hstat : ∀ e ∈ ents, e ≠ ".".toList → e ≠ "..".toList → (os.stat e s.world).1 = 0)
    (hcount : (if found then 1 else 0) + (candidates os s.world ents).length ≤ 1) :
    readdirLoop os ents found dirname s =
      .ok (found || !(candidates os s.world ents).isEmpty,
          ((candidates os s.world ents).head?).getD dirname)
        ⟨s.world, s.env, s.log ++ statCalls ents⟩ := by
  induction ents generalizing found dirname s with
  | nil => simp [readdirLoop, candidates, statCalls]
  | cons e ents ih =>
    have hstat1 : ∀ e1 ∈ ents, e1 ≠ ".".toList → e1 ≠ "..".toList → (os.stat e1 s.world).1 = 0 :=
      fun e1 h1 => hstat e1 (List.mem_cons_of_mem _ h1)
    rw [readdirLoop]
    by_cases hdot : ".".toList ≠ e ∧ "..".toList ≠ e
    · obtain ⟨hc, hs⟩ := candidates_cons_keep os s.world e ents hdot
      have hst : (os.stat e s.world).1 = 0 :=
        hstat e (List.mem_cons_self _ _) (fun h => hdot.1 h.symm) (fun h => hdot.2 h.symm)
      simp only [if_pos hdot, bind_apply, query_apply, if_pos hst]
      by_cases hd : S_ISDIR (os.stat e s.world).2 = true
      · rw [hc, if_pos hd] at hcount ⊢
        simp only [List.length_cons] at hcount
        have hf : found = false := by
          cases found
          · rfl
          · simp at hcount
        subst hf
        have hlen : (candidates os s.world ents).length = 0 := by
          simp only [Bool.false_eq_true, if_false] at hcount
          omega
        have hnil : candidates os s.world ents = [] := List.length_eq_zero.mp hlen
        simp only [if_pos hd, Bool.false_eq_true, if_false, bind_apply, pure_apply]
        rw [ih true e ⟨s.world, s.env, s.log ++ [Event.stat e]⟩ hstat1
          (by rw [if_pos rfl, hlen])]
        simp [hnil, hs]
      · rw [hc, if_neg hd] at hcount ⊢
        simp only [if_neg hd]
        rw [ih found dirname ⟨s.world, s.env, s.log ++ [Event.stat e]⟩ hstat1 hcount]
        simp [hs]
    · obtain ⟨hc, hs⟩ := candidates_cons_skip os s.world e ents hdot
      rw [hc] at hcount ⊢
      simp only [if_neg hdot]
      rw [ih found dirname s hstat1 hcount, hs]

/-- With every entry readable by `stat` and two directories or more counted so
far and to come, the loop exits with `AmbiguousExecutorDirectory` having
made `stat` calls only. -/
theorem readdirLoop_ambiguous {σ : Type} (os : OS σ) (ents : List Str) (found : Bool)
    (dirname : Str) (s : Proc σ)
    (hstat : ∀ e ∈ ents, e ≠ ".".toList → e ≠ "..".toList → (os.stat e s.world).1 = 0)
    (hcount : 2 ≤ (if found then 1 else 0) + (candidates os s.world ents).length) :
    ∃ evs, readdirLoop os ents found dirname s =
        .fatal ⟨ErrorKind.AmbiguousExecutorDirectory,
            "Executor .tgz must contain a single directory", false⟩
          ⟨s.world, s.env, s.log ++ evs⟩ ∧
      ∀ e ∈ evs, e.isStat = true := by
  induction ents generalizing found dirname s with
  | nil =>
    cases found <;> simp [candidates] at hcount
  | cons e ents ih =>
    have hstat1 : ∀ e1 ∈ ents, e1 ≠ ".".toList → e1 ≠ "..".toList → (os.stat e1 s.world).1 = 0 :=
      fun e1 h1 => hstat e1 (List.mem_cons_of_mem _ h1)
    rw [readdirLoop]
    by_cases hdot : ".".toList ≠ e ∧ "..".toList ≠ e
    · obtain ⟨hc, _⟩ := candidates_cons_keep os s.world e ents hdot
      have hst : (os.stat e s.world).1 = 0 :=
        hstat e (List.mem_cons_self _ _) (fun h => hdot.1 h.symm) (fun h => hdot.2 h.symm)
      simp only [if_pos hdot, bind_apply, query_apply, if_pos hst]
      by_cases hd : S_ISDIR (os.stat e s.world).2 = true
      · rw [hc, if_pos hd] at hcount
        simp only [List.length_cons] at hcount
        simp only [if_pos hd]
        cases found with
        | true =>
          refine ⟨[Event.stat e], ?_, ?_⟩
          · simp only [if_true, bind_apply, fatal_apply]
          · intro e1 h1
            rw [List.mem_singleton.mp h1]
            rfl
        | false =>
          simp only [Bool.false_eq_true, if_false, bind_apply, pure_apply]
          obtain ⟨evs, hrun, hevs⟩ := ih true e ⟨s.world, s.env, s.log ++ [Event.stat e]⟩ hstat1
            (by
              show 2 ≤ (if true = true then 1 else 0) + (candidates os s.world ents).length
              rw [if_pos rfl]
              simp only [Bool.false_eq_true, if_false] at hcount
              omega)
          refine ⟨Event.stat e :: evs, ?_, ?_⟩
          · rw [hrun]
            simp
          · intro e1 h1
            rcases List.mem_cons.mp h1 with h | h
            · rw [h]; rfl
            · exact hevs e1 h
      · rw [hc, if_neg hd] at hcount
        simp only [if_neg hd]
        obtain ⟨evs, hrun, hevs⟩ := ih found dirname ⟨s.world, s.env, s.log ++ [Event.stat e]⟩
          hstat1 hcount
        refine ⟨Event.stat e :: evs, ?_, ?_⟩
        · rw [hrun]
          simp
        · intro e1 h1
          rcases List.mem_cons.mp h1 with h | h
          · rw [h]; rfl
          · exact hevs e1 h
    · obtain ⟨hc, _⟩ := candidates_cons_skip os s.world e ents hdot
      rw [hc] at hcount
      simp only [if_neg hdot]
      exact ih found dirname s hstat1 hcount

/-- What the archive block does after a successful extraction, once the
listing is known and every entry can be read by `stat`. -/
theorem untar_listed {σ : Type} (os : OS σ) (executor : Str) (s : Proc σ) (ents : List Str)
    (htar : (os.system ("tar xzf '".toList ++ executor ++ "'".toList) s.env s.world).1 = 0)
    (hlist : os.opendir ".".toList
      (os.system ("tar xzf '".toList ++ executor ++ "'".toList) s.env s.world).2 = some ents)
    (hstat : ∀ e ∈ ents, e ≠ ".".toList → e ≠ "..".toList →
      (os.stat e
        (os.system ("tar xzf '".toList ++ executor ++ "'".toList) s.env s.world).2).1 = 0) :
    let command := "tar xzf '".toList ++ executor ++ "'".toList
    let w := (os.system command s.env s.world).2
    let log := s.log ++ [Event.system command, Event.opendir ".".toList]
    (∀ d, candidates os w ents = [d] →
      untar os executor s =
        if (os.chdir d w).1 < 0 then
          .fatal ⟨ErrorKind.ChdirFailed, "Chdir failed", true⟩
            ⟨(os.chdir d w).2, s.env, log ++ statCalls ents ++ [Event.chdir d]⟩
        else
          .ok "./executor".toList
            ⟨(os.chdir d w).2, s.env, log ++ statCalls ents ++ [Event.chdir d]⟩) ∧
    (candidates os w ents = [] →
      untar os executor s =
        .fatal ⟨ErrorKind.NoExecutorDirectory,
            "Executor .tgz must contain a single directory", false⟩
          ⟨w, s.env, log ++ statCalls ents⟩) ∧
    (2 ≤ (candidates os w ents).length →
      ∃ evs, untar os executor s =
          .fatal ⟨ErrorKind.AmbiguousExecutorDirectory,
              "Executor .tgz must contain a single directory", false⟩
            ⟨w, s.env, log ++ evs⟩ ∧
        ∀ e ∈ evs, e.isStat = true) := by
  intro command w log
  have hret : ¬ (os.system command s.env s.world).1 ≠ 0 := fun h => h htar
  have hrun : untar os executor s =
      ((readdirLoop os ents false "".toList >>= fun r => do
        if r.1 = false then
          fatal ErrorKind.NoExecutorDirectory "Executor .tgz must contain a single directory"
        let c ← call (Event.chdir r.2) (os.chdir r.2)
        if c < 0 then
          fatalerror ErrorKind.ChdirFailed "Chdir failed"
        pure "./executor".toList) : M σ Str) ⟨w, s.env, log⟩ := by
    simp only [untar, bind_apply, system_apply]
    rw [if_neg hret]
    simp only [bind_apply, pure_apply, query_apply, hlist]
    simp only [log, w, command, List.append_assoc, List.cons_append, List.nil_append]
  refine ⟨?_, ?_, ?_⟩
  · intro d hd
    rw [hrun, bind_apply, readdirLoop_single os ents false _ ⟨w, s.env, log⟩ hstat
      (by rw [hd]; simp)]
    simp only [hd, List.isEmpty_cons, Bool.not_false, Bool.or_true, List.head?_cons,
      Option.getD_some, Bool.true_eq_false, if_false, bind_apply, pure_apply, call_apply]
    by_cases hc : (os.chdir d w).1 < 0
    · simp only [if_pos hc, bind_apply, fatalerror_apply]
    · simp only [if_neg hc, bind_apply, pure_apply]
  · intro hd
    rw [hrun, bind_apply, readdirLoop_single os ents false _ ⟨w, s.env, log⟩ hstat
      (by rw [hd]; simp)]
    simp only [hd, List.isEmpty_nil, Bool.not_true, Bool.or_false, if_true, bind_apply,
      fatal_apply]
  · intro hd
    obtain ⟨evs, hamb, hevs⟩ := readdirLoop_ambiguous os ents false "".toList ⟨w, s.env, log⟩
      hstat (by simp only [Bool.false_eq_true, if_false]; omega)
    exact ⟨evs, by rw [hrun, bind_apply, hamb], hevs⟩

/-! ## Facts about the environment -/

/-- A string without NUL is its own C string. -/
theorem c_str_eq_self (s : Str) (h : NUL ∉ s) : c_str s = s := by
  unfold c_str
  rw [List.takeWhile_eq_self_iff]
  intro c hc
  simp only [decide_eq_true_eq]
  intro hn
  exact h (hn ▸ hc)

/-- A C string holds no NUL. -/
theorem c_str_no_nul (s : Str) : NUL ∉ c_str s := by
  unfold c_str
  intro h
  have := List.mem_takeWhile_imp h
  simp at this

/-- After `setenv(name, value, 1)` with a name `setenv` accepts, the variable
`name` holds `value`; every other variable is as before, and so is every
variable when the name is not accepted. -/
theorem getenv_setenvOverwrite (env : Env) (name value other : Str) :
    getenv (setenvOverwrite env name value) other =
      if ValidName name ∧ other = name then some value else getenv env other := by
  unfold setenvOverwrite
  by_cases hv : ValidName name
  · rw [if_pos hv]
    unfold getenv
    by_cases h : other = name
    · subst h
      rw [if_pos ⟨hv, rfl⟩]
      simp
    · have h1 : ¬ name = other := fun h2 => h h2.symm
      rw [if_neg (fun hh => h hh.2)]
      simp only [List.find?_cons, h1, decide_False]
      congr 1
      induction env with
      | nil => rfl
      | cons kv rest ih =>
        by_cases hk : kv.1 = name
        · have hk2 : ¬ kv.1 = other := fun h2 => h (h2.symm.trans hk)
          rw [List.filter_cons_of_neg (by simpa using hk),
            List.find?_cons_of_neg _ (by simpa using hk2)]
          exact ih
        · rw [List.filter_cons_of_pos (by simpa using hk)]
          by_cases hk2 : kv.1 = other
          · rw [List.find?_cons_of_pos _ (by simpa using hk2),
              List.find?_cons_of_pos _ (by simpa using hk2)]
          · rw [List.find?_cons_of_neg _ (by simpa using hk2),
              List.find?_cons_of_neg _ (by simpa using hk2)]
            exact ih
  · rw [if_neg hv, if_neg (fun hh => hv hh.1)]

/-- A key with `env.` in front of a name is a key on which the test of
`setupEnvVariablesFromParams` holds, and the variable set is that name. -/
theorem env_key_iff (key name : Str) :
    key = "env.".toList ++ name ↔
      find key "env.".toList = some 0 ∧ substr key (strlen "env.".toList) = name := by
  rw [find_eq_zero]
  have hlen : strlen "env.".toList = 4 := by decide
  rw [hlen]
  constructor
  · intro h
    subst h
    exact ⟨List.prefix_append _ _, by simp [substr]⟩
  · rintro ⟨⟨t, ht⟩, hsub⟩
    subst ht
    simp [substr] at hsub
    rw [hsub]

/-- The name behind a key without NUL holds no NUL. -/
theorem substr_no_nul (key : Str) (pos : Nat) (h : NUL ∉ key) : NUL ∉ substr key pos :=
  fun hm => h (List.mem_of_mem_drop hm)

/-- The loop always returns, and leaves the world as it was. -/
theorem setupEnvVariablesLoop_ok {σ : Type} (params : List (Str × Str)) (s : Proc σ) :
    ∃ s1, setupEnvVariablesLoop params s = .ok () s1 ∧ s1.world = s.world := by
  induction params generalizing s with
  | nil => exact ⟨s, rfl, rfl⟩
  | cons kv rest ih =>
    obtain ⟨key, value⟩ := kv
    unfold setupEnvVariablesLoop
    by_cases h : find key "env.".toList = some 0
    · simp only [if_pos h, bind_apply, setenv_apply]
      exact ih _
    · simp only [if_neg h, bind_apply, pure_apply]
      exact ih _

/-- With keys that hold no NUL, a variable no entry names keeps its value. -/
theorem setupEnvVariablesLoop_other {σ : Type} (params : List (Str × Str)) (s : Proc σ)
    (hnul : ∀ kv ∈ params, NUL ∉ kv.1)
    (name : Str) (h : ∀ value, ("env.".toList ++ name, value) ∉ params) :
    getenv (setupEnvVariablesLoop params s).state.env name = getenv s.env name := by
  induction params generalizing s with
  | nil => rfl
  | cons kv rest ih =>
    obtain ⟨key, value⟩ := kv
    have hrest : ∀ value, ("env.".toList ++ name, value) ∉ rest :=
      fun v hv => h v (List.mem_cons_of_mem _ hv)
    have hnul1 : ∀ kv ∈ rest, NUL ∉ kv.1 := fun kv hkv => hnul kv (List.mem_cons_of_mem _ hkv)
    have hkeynul : NUL ∉ key := hnul (key, value) (List.mem_cons_self _ _)
    have hkey : key ≠ "env.".toList ++ name := by
      intro hk
      exact h value (by rw [hk]; exact List.mem_cons_self _ _)
    unfold setupEnvVariablesLoop
    by_cases hf : find key "env.".toList = some 0
    · simp only [if_pos hf, bind_apply, setenv_apply]
      rw [ih _ hnul1 hrest]
      simp only
      rw [getenv_setenvOverwrite, if_neg]
      rintro ⟨_, hn⟩
      rw [c_str_eq_self _ (substr_no_nul key _ hkeynul)] at hn
      exact hkey ((env_key_iff key name).mpr ⟨hf, hn.symm⟩)
    · simp only [if_neg hf, bind_apply, pure_apply]
      exact ih _ hnul1 hrest

/-- With keys that are all different and hold no NUL, a variable an entry
names, by a name `setenv` accepts, holds that entry's value as a C string. -/
theorem setupEnvVariablesLoop_binding {σ : Type} (params : List (Str × Str)) (s : Proc σ)
    (hnodup : (params.map Prod.fst).Nodup) (hnul : ∀ kv ∈ params, NUL ∉ kv.1)
    (name value : Str) (hvalid : ValidName name)
    (h : ("env.".toList ++ name, value) ∈ params) :
    getenv (setupEnvVariablesLoop params s).state.env name = some (c_str value) := by
  induction params generalizing s with
  | nil => simp at h
  | cons kv rest ih =>
    obtain ⟨key, value1⟩ := kv
    simp only [List.map_cons, List.nodup_cons] at hnodup
    obtain ⟨hnot, hnodup1⟩ := hnodup
    have hnul1 : ∀ kv ∈ rest, NUL ∉ kv.1 := fun kv hkv => hnul kv (List.mem_cons_of_mem _ hkv)
    have hkeynul : NUL ∉ key := hnul (key, value1) (List.mem_cons_self _ _)
    unfold setupEnvVariablesLoop
    rcases List.mem_cons.mp h with heq | hmem
    · simp only [Prod.mk.injEq] at heq
      obtain ⟨hk, hv⟩ := heq
      have hf := (env_key_iff key name).mp hk.symm
      simp only [if_pos hf.1, bind_apply, setenv_apply]
      rw [setupEnvVariablesLoop_other _ _ hnul1]
      · simp only
        rw [c_str_eq_self _ (substr_no_nul key _ hkeynul), hf.2, getenv_setenvOverwrite,
          if_pos ⟨hvalid, rfl⟩, hv]
      · intro v hv1
        apply hnot
        rw [← hk]
        exact List.mem_map_of_mem Prod.fst hv1
    · by_cases hf : find key "env.".toList = some 0
      · simp only [if_pos hf, bind_apply, setenv_apply]
        exact ih _ hnodup1 hnul1 hmem
      · simp only [if_neg hf, bind_apply, pure_apply]
        exact ih _ hnodup1 hnul1 hmem

theorem setupEnvVariablesLoop_appends {σ : Type} (params : List (Str × Str)) :
    Appends (fun e => e.isSetenv = true) (setupEnvVariablesLoop params : M σ Unit) := by
  induction params with
  | nil => exact appends_pure _ _
  | cons kv rest ih =>
    obtain ⟨key, value⟩ := kv
    unfold setupEnvVariablesLoop
    repeat' first
      | exact ih
      | exact appends_pure _ _
      | exact appends_setenv _ _ _ rfl
      | apply appends_bind
      | apply appends_ite
      | intro _

/-- What `setupEnvironment` returns, in terms of the state after the loop
over the parameters. -/
theorem setupEnvironment_apply {σ : Type} (l : ExecutorLauncher) (s : Proc σ) :
    setupEnvironment l s =
      (let s1 := (setupEnvVariablesLoop l.params s).state
       let env3 := setenvOverwrite (setenvOverwrite (setenvOverwrite s1.env
         "MESOS_SLAVE_PID".toList (c_str l.slavePid))
         "MESOS_FRAMEWORK_ID".toList (c_str l.frameworkId))
         "LIBPROCESS_PORT".toList "0".toList
       let log3 := s1.log ++ [Event.setenv "MESOS_SLAVE_PID".toList (c_str l.slavePid) true,
         Event.setenv "MESOS_FRAMEWORK_ID".toList (c_str l.frameworkId) true,
         Event.setenv "LIBPROCESS_PORT".toList "0".toList true]
       if l.mesosHome ≠ "".toList then
         .ok () ⟨s.world, setenvOverwrite env3 "MESOS_HOME".toList (c_str l.mesosHome),
           log3 ++ [Event.setenv "MESOS_HOME".toList (c_str l.mesosHome) true]⟩
       else .ok () ⟨s.world, env3, log3⟩) := by
  have hc1 : c_str "MESOS_SLAVE_PID".toList = "MESOS_SLAVE_PID".toList := by decide
  have hc2 : c_str "MESOS_FRAMEWORK_ID".toList = "MESOS_FRAMEWORK_ID".toList := by decide
  have hc3 : c_str "LIBPROCESS_PORT".toList = "LIBPROCESS_PORT".toList := by decide
  have hc4 : c_str "0".toList = "0".toList := by decide
  have hc5 : c_str "MESOS_HOME".toList = "MESOS_HOME".toList := by decide
  obtain ⟨s1, hs1, hw⟩ := setupEnvVariablesLoop_ok l.params s
  simp only [setupEnvironment, setupEnvVariablesFromParams, bind_apply, hs1, setenv_apply,
    state_ok, hw, hc1, hc2, hc3, hc4]
  by_cases hm : l.mesosHome ≠ "".toList
  · simp only [if_pos hm, setenv_apply, hc5, List.append_assoc, List.cons_append,
      List.nil_append]
  · simp only [if_neg hm, pure_apply, List.append_assoc, List.cons_append, List.nil_append]

/-- C4: `switchUser` looks the account up first.  When the lookup fails it exits
with `UnknownUser` having called neither `setgid` nor `setuid`.  Otherwise it
calls `setgid` with the account's group id; a negative result is fatal and
`setuid` is not called; else it calls `setuid` with the account's user id, and
a negative result is fatal.  No `setuid` call comes before a `setgid` call. -/
theorem switchUser_setgid_before_setuid {σ : Type} (os : OS σ) (l : ExecutorLauncher)
    (s : Proc σ) :
    (os.getpwnam l.user s.world = none →
      switchUser os l s =
        .fatal ⟨ErrorKind.UnknownUser, "failed to get username information for %s", false⟩
          ⟨s.world, s.env, s.log ++ [Event.getpwnam l.user]⟩) ∧
    (∀ pw, os.getpwnam l.user s.world = some pw →
      ((os.setgid pw.pw_gid s.world).1 < 0 →
        switchUser os l s =
          .fatal ⟨ErrorKind.PrivilegeDropFailed, "failed to setgid", true⟩
            ⟨(os.setgid pw.pw_gid s.world).2, s.env,
              s.log ++ [Event.getpwnam l.user, Event.setgid pw.pw_gid]⟩) ∧
      (¬ (os.setgid pw.pw_gid s.world).1 < 0 →
        (switchUser os l s).state =
          ⟨(os.setuid pw.pw_uid (os.setgid pw.pw_gid s.world).2).2, s.env,
            s.log ++ [Event.getpwnam l.user, Event.setgid pw.pw_gid,
              Event.setuid pw.pw_uid]⟩ ∧
        ((os.setuid pw.pw_uid (os.setgid pw.pw_gid s.world).2).1 < 0 →
          ∃ s1, switchUser os l s =
            .fatal ⟨ErrorKind.PrivilegeDropFailed, "failed to setuid", true⟩ s1) ∧
        (¬ (os.setuid pw.pw_uid (os.setgid pw.pw_gid s.world).2).1 < 0 →
          ∃ s1, switchUser os l s = .ok () s1))) ∧
    (∀ evs, (switchUser os l s).state.log = s.log ++ evs →
      ∀ i j : Nat, (∃ e : Event, evs[i]? = some e ∧ e.isSetuid) →
        (∃ e : Event, evs[j]? = some e ∧ e.isSetgid) → j < i) := by
  refine ⟨?_, ?_, ?_⟩
  · intro h
    simp [switchUser, h]
  · intro pw h
    by_cases hg : (os.setgid pw.pw_gid s.world).1 < 0
    · simp [switchUser, h, hg]
    · by_cases hu : (os.setuid pw.pw_uid (os.setgid pw.pw_gid s.world).2).1 < 0
      · simp [switchUser, h, hg, hu]
      · simp [switchUser, h, hg, hu]
  · intro evs hlog i j hi hj
    obtain ⟨e1, hi, he1⟩ := hi
    obtain ⟨e2, hj, he2⟩ := hj
    cases h : os.getpwnam l.user s.world with
    | none =>
      simp [switchUser, h] at hlog
      subst hlog
      match i, hi with
      | 0, hi => simp at hi; subst hi; simp [Event.isSetuid] at he1
      | k + 1, hi => simp at hi
    | some pw =>
      by_cases hg : (os.setgid pw.pw_gid s.world).1 < 0
      · simp [switchUser, h, hg] at hlog
        subst hlog
        match i, hi with
        | 0, hi => simp at hi; subst hi; simp [Event.isSetuid] at he1
        | 1, hi => simp at hi; subst hi; simp [Event.isSetuid] at he1
        | k + 2, hi => simp at hi
      · have hst : (switchUser os l s).state.log =
            s.log ++ [Event.getpwnam l.user, Event.setgid pw.pw_gid, Event.setuid pw.pw_uid] := by
          by_cases hu : (os.setuid pw.pw_uid (os.setgid pw.pw_gid s.world).2).1 < 0
          · simp [switchUser, h, hg, hu]
          · simp [switchUser, h, hg, hu]
        rw [hst] at hlog
        have hevs := List.append_cancel_left hlog
        subst hevs
        match i, hi with
        | 0, hi => simp at hi; subst hi; simp [Event.isSetuid] at he1
        | 1, hi => simp at hi; subst hi; simp [Event.isSetuid] at he1
        | 2, hi =>
          match j, hj with
          | 0, hj => omega
          | 1, hj => omega
          | 2, hj => simp at hj; subst hj; simp [Event.isSetgid] at he2
          | k + 3, hj => simp at hj
        | k + 3, hi => simp at hi

/-- C1: a reference holding a backslash, a single quote or a NUL makes
`fetchExecutor` exit with `InvalidReference` ("Illegal characters in
executor path") in the very state it was entered in: nothing was called, so
neither the copy command nor `tar` ran.  Nothing is assumed about the
beginning or the end of the reference. -/
theorem fetchExecutor_illegal_characters {σ : Type} (os : OS σ) (l : ExecutorLauncher)
    (s : Proc σ)
    (h : backslash ∈ l.executorUri ∨ quote ∈ l.executorUri ∨ NUL ∈ l.executorUri) :
    fetchExecutor os l s =
      .fatal ⟨ErrorKind.InvalidReference, "Illegal characters in executor path", false⟩ s := by
  have h1 : find_first_of l.executorUri [backslash] ≠ npos ∨
      find_first_of l.executorUri [quote] ≠ npos ∨
      find_first_of l.executorUri [NUL] ≠ npos := by
    simpa only [find_first_of_char_ne_npos] using h
  simp only [fetchExecutor, bind_apply, if_pos h1, fatal_apply]

/-- The mode given to `chmod` is owner rwx, group r-x, other r-x. -/
theorem chmod_mode : S_IRWXU ||| S_IRGRP ||| S_IXGRP ||| S_IROTH ||| S_IXOTH = 0o755 := by
  decide

/-- The copy command as `hdfsFetch` builds it, written with the local file
name spelt out. -/
theorem copy_command_eq (client reference base : Str) :
    client ++ " fs -copyToLocal '".toList ++ reference ++ "' '".toList
        ++ ("./".toList ++ base) ++ "'".toList =
      client ++ " fs -copyToLocal '".toList ++ reference ++ "' './".toList
        ++ base ++ "'".toList := by
  have h : "' './".toList = "' '".toList ++ "./".toList := by decide
  rw [h]
  simp only [List.append_assoc]

/-- The local file name of the HDFS block holds no NUL: it is its own C
string. -/
theorem c_str_localFile (base : Str) :
    c_str ("./".toList ++ c_str base) = "./".toList ++ c_str base := by
  apply c_str_eq_self
  intro h
  rcases List.mem_append.mp h with h1 | h1
  · revert h1
    decide
  · exact c_str_no_nul base h1

/-- The copy command holds no NUL when the client, the reference and the name
hold none: it is handed to `system` whole. -/
theorem c_str_copy_command (client reference base : Str) (hc : NUL ∉ client)
    (hr : NUL ∉ reference) (hb : NUL ∉ base) :
    c_str (client ++ " fs -copyToLocal '".toList ++ reference ++ "' './".toList
        ++ base ++ "'".toList) =
      client ++ " fs -copyToLocal '".toList ++ reference ++ "' './".toList
        ++ base ++ "'".toList := by
  apply c_str_eq_self
  have h1 : NUL ∉ " fs -copyToLocal '".toList := by decide
  have h2 : NUL ∉ "' './".toList := by decide
  have h3 : NUL ∉ "'".toList := by decide
  simp only [List.mem_append, not_or]
  exact ⟨⟨⟨⟨⟨hc, h1⟩, hr⟩, h2⟩, hb⟩, h3⟩

/-- What `hdfsFetch` does once the client is known. -/
theorem hdfsFetch_apply {σ : Type} (os : OS σ) (l : ExecutorLauncher) (executor : Str)
    (s : Proc σ) (client : Str)
    (hclient : client = if l.hadoopHome ≠ "".toList then l.hadoopHome ++ "/bin/hadoop".toList
      else match getenv s.env "HADOOP_HOME".toList with
        | some h => h ++ "/bin/hadoop".toList
        | none => "hadoop".toList) :
    hdfsFetch os l executor s =
      (let command := c_str (client ++ " fs -copyToLocal '".toList ++ (os.basename executor).2
          ++ "' './".toList ++ c_str (os.basename executor).1 ++ "'".toList)
       let localFile := "./".toList ++ c_str (os.basename executor).1
       let ret := os.system command s.env s.world
       let ch := os.chmod localFile 0o755 ret.2
       if ret.1 ≠ 0 then
         .fatal ⟨ErrorKind.FetchFailed, "HDFS copyToLocal failed: return code %d", false⟩
           ⟨ret.2, s.env, s.log ++ [Event.system command]⟩
       else if ch.1 ≠ 0 then
         .fatal ⟨ErrorKind.ChmodFailed, "chmod failed", true⟩
           ⟨ch.2, s.env, s.log ++ [Event.system command, Event.chmod localFile 0o755]⟩
       else
         .ok localFile
           ⟨ch.2, s.env, s.log ++ [Event.system command, Event.chmod localFile 0o755]⟩) := by
  have key : ∀ script : Str,
      ((do
        let base := os.basename executor
        let executor := base.2
        let localFile := "./".toList ++ c_str base.1
        let command := script ++ " fs -copyToLocal '".toList ++ executor
          ++ "' '".toList ++ localFile ++ "'".toList
        let ret ← system os (c_str command)
        if ret ≠ 0 then
          fatal ErrorKind.FetchFailed "HDFS copyToLocal failed: return code %d"
        let executor := localFile
        let r ← call
          (Event.chmod (c_str executor)
            (S_IRWXU ||| S_IRGRP ||| S_IXGRP ||| S_IROTH ||| S_IXOTH))
          (os.chmod (c_str executor) (S_IRWXU ||| S_IRGRP ||| S_IXGRP ||| S_IROTH ||| S_IXOTH))
        if r ≠ 0 then
          fatalerror ErrorKind.ChmodFailed "chmod failed"
        pure executor) : M σ Str) s =
      (let command := c_str (script ++ " fs -copyToLocal '".toList ++ (os.basename executor).2
          ++ "' './".toList ++ c_str (os.basename executor).1 ++ "'".toList)
       let localFile := "./".toList ++ c_str (os.basename executor).1
       let ret := os.system command s.env s.world
       let ch := os.chmod localFile 0o755 ret.2
       if ret.1 ≠ 0 then
         .fatal ⟨ErrorKind.FetchFailed, "HDFS copyToLocal failed: return code %d", false⟩
           ⟨ret.2, s.env, s.log ++ [Event.system command]⟩
       else if ch.1 ≠ 0 then
         .fatal ⟨ErrorKind.ChmodFailed, "chmod failed", true⟩
           ⟨ch.2, s.env, s.log ++ [Event.system command, Event.chmod localFile 0o755]⟩
       else
         .ok localFile
           ⟨ch.2, s.env, s.log ++ [Event.system command, Event.chmod localFile 0o755]⟩) := by
    intro script
    simp only [bind_apply, system_apply, copy_command_eq, chmod_mode, c_str_localFile]
    generalize os.system _ s.env s.world = ret
    by_cases h1 : ret.1 ≠ 0
    · simp only [if_pos h1, bind_apply, fatal_apply]
    · simp only [if_neg h1, bind_apply, pure_apply, call_apply]
      generalize os.chmod _ _ ret.2 = ch
      by_cases h2 : ch.1 ≠ 0
      · simp only [if_pos h2, bind_apply, fatalerror_apply, List.append_assoc, List.cons_append,
          List.nil_append]
      · simp only [if_neg h2, bind_apply, pure_apply, List.append_assoc, List.cons_append,
          List.nil_append]
  subst hclient
  by_cases hh : l.hadoopHome ≠ "".toList
  · simp only [hdfsFetch, bind_apply, if_pos hh, pure_apply]
    exact key _
  · cases hg : getenv s.env "HADOOP_HOME".toList with
    | none =>
      simp only [hdfsFetch, bind_apply, if_neg hh, pure_apply, getenvM_apply, hg]
      exact key _
    | some home =>
      simp only [hdfsFetch, bind_apply, if_neg hh, pure_apply, getenvM_apply, hg]
      exact key _

/-- The `basename` of the GNU C library leaves alone a buffer whose path does
not end in a separator. -/
theorem xpg_basename_unchanged (buffer : Str) (h : (c_str buffer).getLast? ≠ some '/') :
    (xpg_basename buffer).2 = buffer := by
  unfold xpg_basename
  by_cases h1 : c_str buffer = []
  · simp only [h1, if_true]
  · simp only [h1, if_false, h, ne_eq, not_false_eq_true, if_true]

/-- C8, as stated, fails.  With `hadoopHome` holding a NUL (`/opt`, NUL, `x`)
the command is handed to `system` cut at that NUL, so what runs is `/opt`
alone.  And on the reference `hdfs://store/pkg/`, `basename` writes a NUL over
the trailing separator before the command is built, so what runs ends at
`'hdfs://store/pkg`. -/
theorem fetchExecutor_hdfs_command_cut :
    ((fetchExecutor simOS
        { hdfsLauncher with hadoopHome := "/opt".toList ++ [NUL] ++ "x".toList }
        (emptyProc [])).state.log.head? = some (Event.system "/opt".toList) ∧
      "/opt".toList ≠ "/opt".toList ++ [NUL] ++ "x/bin/hadoop".toList
        ++ " fs -copyToLocal 'hdfs://store/pkg.tgz' './pkg.tgz'".toList) ∧
    ((backslash ∉ "hdfs://store/pkg/".toList ∧ quote ∉ "hdfs://store/pkg/".toList ∧
        NUL ∉ "hdfs://store/pkg/".toList) ∧
      "hdfs://".toList <+: "hdfs://store/pkg/".toList ∧
      (fetchExecutor simOS { hdfsLauncher with executorUri := "hdfs://store/pkg/".toList }
        (emptyProc [])).state.log.head? =
        some (Event.system
          "/opt/hadoop/bin/hadoop fs -copyToLocal 'hdfs://store/pkg".toList) ∧
      "/opt/hadoop/bin/hadoop fs -copyToLocal 'hdfs://store/pkg".toList ≠
        "/opt/hadoop/bin/hadoop fs -copyToLocal 'hdfs://store/pkg/' './pkg'".toList) := by
  refine ⟨⟨?_, by decide⟩, by decide, by decide, ?_, by decide⟩
  · rfl
  · rfl

/-- C8, amended: for a reference that passes the check, begins with `hdfs://`
and is left as it is by `basename`, the first call of `fetchExecutor` is
`system` on the C string of: the client, ` fs -copyToLocal '`, the
reference, `' './`, the base name of the reference and a closing quote; that
is the whole text when the client holds no NUL.  The client is `hadoopHome` +
`/bin/hadoop` when `hadoopHome` is not empty, else `$HADOOP_HOME` +
`/bin/hadoop` when that variable is set, else `hadoop`.  A non-zero result is
fatal (`FetchFailed`) with no other call made.  On a zero result the file
`./` + base name is given mode 0755 by `chmod` (a non-zero result of `chmod`
is fatal), and it is the local name `fetchExecutor` goes on with: the archive
test is made on it.  On a reference that does not end in `/` the `basename`
of the GNU C library leaves the reference as it is and gives what follows the
last `/` as the name. -/
theorem fetchExecutor_hdfs_command {σ : Type} (os : OS σ) (l : ExecutorLauncher) (s : Proc σ)
    (hvalid : backslash ∉ l.executorUri ∧ quote ∉ l.executorUri ∧ NUL ∉ l.executorUri)
    (hhdfs : "hdfs://".toList <+: l.executorUri)
    (hbuffer : (os.basename l.executorUri).2 = l.executorUri) :
    ∃ client : Str,
      (l.hadoopHome ≠ [] → client = l.hadoopHome ++ "/bin/hadoop".toList) ∧
      (l.hadoopHome = [] → ∀ home, getenv s.env "HADOOP_HOME".toList = some home →
        client = home ++ "/bin/hadoop".toList) ∧
      (l.hadoopHome = [] → getenv s.env "HADOOP_HOME".toList = none →
        client = "hadoop".toList) ∧
      (let base := c_str (os.basename l.executorUri).1
       let text := client ++ " fs -copyToLocal '".toList ++ l.executorUri ++ "' './".toList
          ++ base ++ "'".toList
       let command := c_str text
       let localFile := "./".toList ++ base
       let ret := os.system command s.env s.world
       let ch := os.chmod localFile 0o755 ret.2
       (NUL ∉ client → command = text) ∧
       (ret.1 ≠ 0 →
          fetchExecutor os l s =
            .fatal ⟨ErrorKind.FetchFailed, "HDFS copyToLocal failed: return code %d", false⟩
              ⟨ret.2, s.env, s.log ++ [Event.system command]⟩) ∧
       (ret.1 = 0 → ch.1 ≠ 0 →
          fetchExecutor os l s =
            .fatal ⟨ErrorKind.ChmodFailed, "chmod failed", true⟩
              ⟨ch.2, s.env, s.log ++ [Event.system command, Event.chmod localFile 0o755]⟩) ∧
       (ret.1 = 0 → ch.1 = 0 →
          localExecutor os l s =
            .ok localFile
              ⟨ch.2, s.env, s.log ++ [Event.system command, Event.chmod localFile 0o755]⟩ ∧
          fetchExecutor os l s =
            (if tgzTest localFile then untar os localFile else pure localFile)
              ⟨ch.2, s.env, s.log ++ [Event.system command, Event.chmod localFile 0o755]⟩)) ∧
      (l.executorUri.getLast? ≠ some '/' →
        xpg_basename l.executorUri = (lastComponent l.executorUri, l.executorUri)) := by
  have h1 : ¬ (find_first_of l.executorUri [backslash] ≠ npos ∨
      find_first_of l.executorUri [quote] ≠ npos ∨
      find_first_of l.executorUri [NUL] ≠ npos) := by
    simp only [find_first_of_char_ne_npos]
    tauto
  have h2 : find l.executorUri "hdfs://".toList = some 0 := (find_eq_zero _ _).mpr hhdfs
  have hloc : localExecutor os l s = hdfsFetch os l l.executorUri s := by
    simp only [localExecutor, bind_apply, if_neg h1, pure_apply, if_pos h2]
  refine ⟨if l.hadoopHome ≠ "".toList then l.hadoopHome ++ "/bin/hadoop".toList
      else match getenv s.env "HADOOP_HOME".toList with
        | some h => h ++ "/bin/hadoop".toList
        | none => "hadoop".toList, ?_, ?_, ?_, ?_, ?_⟩
  · intro hh
    have hh1 : l.hadoopHome ≠ "".toList := hh
    rw [if_pos hh1]
  · intro hh home hg
    have hh1 : ¬ l.hadoopHome ≠ "".toList := fun h => h hh
    rw [if_neg hh1, hg]
  · intro hh hg
    have hh1 : ¬ l.hadoopHome ≠ "".toList := fun h => h hh
    rw [if_neg hh1, hg]
  · have hfetch := hdfsFetch_apply os l l.executorUri s _ rfl
    rw [hbuffer] at hfetch
    rw [fetchExecutor_eq, bind_apply, hloc, hfetch]
    refine ⟨?_, ?_, ?_, ?_⟩
    · intro hc
      exact c_str_copy_command _ _ _ hc hvalid.2.2 (c_str_no_nul _)
    · intro hret
      simp only [if_pos hret]
    · intro hret hch
      have hret1 : ¬ (os.system _ s.env s.world).1 ≠ 0 := fun h => h hret
      simp only [if_neg hret1, if_pos hch]
    · intro hret hch
      have hret1 : ¬ (os.system _ s.env s.world).1 ≠ 0 := fun h => h hret
      have hch1 : ¬ (os.chmod _ _ (os.system _ s.env s.world).2).1 ≠ 0 := fun h => h hch
      simp only [if_neg hret1, if_neg hch1, and_self]
  · intro hlast
    have hc := c_str_eq_self _ hvalid.2.2
    have hne : l.executorUri ≠ [] := by
      intro h
      rw [h] at hhdfs
      exact absurd hhdfs (by decide)
    unfold xpg_basename
    simp only [hc, if_neg hne, if_pos hlast]

/-- C2: on the three-character reference `./x`, which passes the check, does
not begin with `hdfs://` and does not end in `.tgz`, the archive test of
`fetchExecutor` holds all the same (`rfind` returns `npos`, and `size() - 4`
wraps around to the same value), so the first thing `fetchExecutor` does is
run `tar xzf './x'`; the reference is not returned untouched.  In general
the archive test holds exactly for the names that end in `.tgz` and for the
names of three characters. -/
theorem fetchExecutor_three_characters_runs_tar {σ : Type} (os : OS σ) (s : Proc σ) :
    (backslash ∉ shortPathLauncher.executorUri ∧ quote ∉ shortPathLauncher.executorUri ∧
      NUL ∉ shortPathLauncher.executorUri) ∧
    ¬ "hdfs://".toList <+: shortPathLauncher.executorUri ∧
    ¬ ".tgz".toList <:+ shortPathLauncher.executorUri ∧
    rfind shortPathLauncher.executorUri ".tgz".toList = npos ∧
    sizeSub (size shortPathLauncher.executorUri) (strlen ".tgz".toList) = sizeT npos ∧
    tgzTest shortPathLauncher.executorUri = true ∧
    (∃ rest, (fetchExecutor os shortPathLauncher s).state.log =
      s.log ++ Event.system "tar xzf './x'".toList :: rest) ∧
    fetchExecutor os shortPathLauncher s ≠ .ok shortPathLauncher.executorUri s ∧
    (∀ executor : Str, executor.length < SIZE_RANGE →
      (tgzTest executor = true ↔ (".tgz".toList <:+ executor ∨ executor.length = 3))) := by
  have hrun : fetchExecutor os shortPathLauncher s = untar os "./x".toList s := by
    rw [fetchExecutor_eq]
    rfl
  have hlog : ∃ rest, (untar os "./x".toList s).state.log =
      s.log ++ Event.system "tar xzf './x'".toList :: rest := by
    have hc : "tar xzf './x'".toList = "tar xzf '".toList ++ "./x".toList ++ "'".toList := by
      decide
    obtain ⟨rest, hrest, _⟩ := untar_log os "./x".toList s
    exact ⟨rest, by rw [hrest, hc]⟩
  refine ⟨by decide, by decide, by decide, by decide, by decide, by decide, ?_, ?_,
    tgzTest_iff⟩
  · rw [hrun]
    exact hlog
  · rw [hrun]
    intro h
    obtain ⟨rest, hrest⟩ := hlog
    rw [h] at hrest
    simp at hrest

/-- After `setenv` with a name it accepts, the variable holds the value and
the others are as before. -/
theorem getenv_setenvOverwrite_valid (name : Str) (h : ValidName name) (env : Env)
    (value other : Str) :
    getenv (setenvOverwrite env name value) other =
      if other = name then some value else getenv env other := by
  rw [getenv_setenvOverwrite]
  by_cases ho : other = name
  · rw [if_pos ⟨h, ho⟩, if_pos ho]
  · rw [if_neg (fun hh => ho hh.2), if_neg ho]

/-- C6, as stated, fails.  With the parameter `env.LIBPROCESS_PORT -> 5050` the
environment after `setupEnvironment` holds `0` in `LIBPROCESS_PORT`, not
`5050`.  With the parameter `env. -> v` the empty name holds nothing, `setenv`
refusing it.  With the parameter `env.A -> x NUL y` the variable `A` holds
`x`. -/
theorem setupEnvironment_fixed_variable_wins :
    (("env.".toList ++ "LIBPROCESS_PORT".toList, "5050".toList) ∈ portLauncher.params ∧
      getenv (setupEnvironment portLauncher (emptyProc ())).state.env "LIBPROCESS_PORT".toList =
        some "0".toList) ∧
    (("env.".toList ++ "".toList, "v".toList) ∈ (paramsLauncher
        [("env.".toList, "v".toList)]).params ∧
      getenv (setupEnvironment (paramsLauncher [("env.".toList, "v".toList)])
        (emptyProc ())).state.env "".toList = none) ∧
    (("env.".toList ++ "A".toList, "x".toList ++ [NUL] ++ "y".toList) ∈ (paramsLauncher
        [("env.A".toList, "x".toList ++ [NUL] ++ "y".toList)]).params ∧
      getenv (setupEnvironment
        (paramsLauncher [("env.A".toList, "x".toList ++ [NUL] ++ "y".toList)])
        (emptyProc ())).state.env "A".toList = some "x".toList ∧
      "x".toList ≠ "x".toList ++ [NUL] ++ "y".toList) := by
  decide

/-- C6, amended: after `setupEnvironment`, for a parameter map (keys all
different) whose keys hold no NUL, every entry `env.N -> V` whose name `N` is
not empty, holds no `=` and is none of `MESOS_SLAVE_PID`, `MESOS_FRAMEWORK_ID`,
`LIBPROCESS_PORT` and, when `mesosHome` is not empty, `MESOS_HOME`, has `N`
holding `V` cut at its first NUL (`V` itself when it holds none); those names
hold the launcher's own values, cut likewise: `slavePid`, `frameworkId`, `0`
and `mesosHome`. -/
theorem setupEnvironment_exports_params {σ : Type} (l : ExecutorLauncher) (s : Proc σ)
    (hmap : (l.params.map Prod.fst).Nodup) (hnul : ∀ kv ∈ l.params, NUL ∉ kv.1) :
    (∀ name value, ("env.".toList ++ name, value) ∈ l.params → ValidName name →
      name ≠ "MESOS_SLAVE_PID".toList → name ≠ "MESOS_FRAMEWORK_ID".toList →
      name ≠ "LIBPROCESS_PORT".toList →
      (name ≠ "MESOS_HOME".toList ∨ l.mesosHome = "".toList) →
      getenv (setupEnvironment l s).state.env name = some (c_str value) ∧
      (NUL ∉ value → getenv (setupEnvironment l s).state.env name = some value)) ∧
    getenv (setupEnvironment l s).state.env "MESOS_SLAVE_PID".toList =
      some (c_str l.slavePid) ∧
    getenv (setupEnvironment l s).state.env "MESOS_FRAMEWORK_ID".toList =
      some (c_str l.frameworkId) ∧
    getenv (setupEnvironment l s).state.env "LIBPROCESS_PORT".toList = some "0".toList ∧
    (l.mesosHome ≠ "".toList →
      getenv (setupEnvironment l s).state.env "MESOS_HOME".toList =
        some (c_str l.mesosHome)) := by
  have hd1 : ("MESOS_SLAVE_PID".toList = "MESOS_FRAMEWORK_ID".toList) = False := by decide
  have hd2 : ("MESOS_SLAVE_PID".toList = "LIBPROCESS_PORT".toList) = False := by decide
  have hd3 : ("MESOS_SLAVE_PID".toList = "MESOS_HOME".toList) = False := by decide
  have hd4 : ("MESOS_FRAMEWORK_ID".toList = "LIBPROCESS_PORT".toList) = False := by decide
  have hd5 : ("MESOS_FRAMEWORK_ID".toList = "MESOS_HOME".toList) = False := by decide
  have hd6 : ("LIBPROCESS_PORT".toList = "MESOS_HOME".toList) = False := by decide
  have hg1 := getenv_setenvOverwrite_valid "MESOS_SLAVE_PID".toList (by decide)
  have hg2 := getenv_setenvOverwrite_valid "MESOS_FRAMEWORK_ID".toList (by decide)
  have hg3 := getenv_setenvOverwrite_valid "LIBPROCESS_PORT".toList (by decide)
  have hg4 := getenv_setenvOverwrite_valid "MESOS_HOME".toList (by decide)
  have hbind : ∀ name value, ("env.".toList ++ name, value) ∈ l.params → ValidName name →
      getenv (setupEnvVariablesLoop l.params s).state.env name = some (c_str value) :=
    fun name value hmem hvalid =>
      setupEnvVariablesLoop_binding l.params s hmap hnul name value hvalid hmem
  rw [setupEnvironment_apply]
  by_cases hm : l.mesosHome ≠ "".toList
  · simp only [if_pos hm, state_ok, hg1, hg2, hg3, hg4, hd1, hd2, hd3, hd4, hd5, hd6,
      if_true, if_false]
    refine ⟨?_, trivial, trivial, trivial, fun _ => trivial⟩
    intro name value hmem hvalid h1 h2 h3 h4
    have h4a : name ≠ "MESOS_HOME".toList := by
      rcases h4 with h4 | h4
      · exact h4
      · exact absurd h4 hm
    rw [if_neg h4a, if_neg h3, if_neg h2, if_neg h1, hbind name value hmem hvalid]
    exact ⟨rfl, fun hv => by rw [c_str_eq_self value hv]⟩
  · simp only [if_neg hm, state_ok, hg1, hg2, hg3, hd1, hd2, hd3, hd4, hd5, hd6,
      if_true, if_false]
    refine ⟨?_, trivial, trivial, trivial, fun h => absurd h hm⟩
    intro name value hmem hvalid h1 h2 h3 _
    rw [if_neg h3, if_neg h2, if_neg h1, hbind name value hmem hvalid]
    exact ⟨rfl, fun hv => by rw [c_str_eq_self value hv]⟩

theorem setupEnvironment_appends {σ : Type} (l : ExecutorLauncher) :
    Appends (fun e => e.isSetenv = true) (setupEnvironment l : M σ Unit) := by
  unfold setupEnvironment setupEnvVariablesFromParams
  repeat' first
    | exact setupEnvVariablesLoop_appends _
    | exact appends_pure _ _
    | exact appends_setenv _ _ _ rfl
    | apply appends_bind
    | apply appends_ite
    | intro _

theorem setupEnvironment_ok {σ : Type} (l : ExecutorLauncher) (s : Proc σ) :
    ∃ s1, setupEnvironment l s = .ok () s1 ∧ s1.world = s.world := by
  rw [setupEnvironment_apply]
  by_cases hm : l.mesosHome ≠ "".toList
  · simp only [if_pos hm]
    exact ⟨_, rfl, rfl⟩
  · simp only [if_neg hm]
    exact ⟨_, rfl, rfl⟩

/-- C7, as stated, fails.  With the user `a NUL b` the variable `MESOS_USER`
holds `a` after `setupEnvironmentForLauncherMain`: the field is handed to
`setenv` as a C string.  What is read back is not the field. -/
theorem setupEnvironmentForLauncherMain_cuts_at_nul :
    getenv (setupEnvironmentForLauncherMain nulUserLauncher (emptyProc ())).state.env
      "MESOS_USER".toList = some "a".toList ∧
    some "a".toList ≠ some nulUserLauncher.user ∧
    readBack (setupEnvironmentForLauncherMain nulUserLauncher (emptyProc ())).state.env ≠
      some nulUserLauncher.fields := by
  decide

/-- C7, amended: `setupEnvironmentForLauncherMain` returns with the world
untouched, having made only `setenv` calls (nothing is resolved or executed).
In the environment it leaves, `MESOS_FRAMEWORK_ID`, `MESOS_EXECUTOR_URI`,
`MESOS_USER`, `MESOS_WORK_DIRECTORY`, `MESOS_SLAVE_PID`, `MESOS_HOME` and
`MESOS_HADOOP_HOME` hold the fields of the launcher cut at their first NUL,
empty or not and whatever the parameters are, and `MESOS_REDIRECT_IO` and
`MESOS_SWITCH_USER` hold `1` for true and `0` for false.  When the seven
fields hold no NUL the variables hold the fields themselves, and reading the
nine variables back gives the nine fields. -/
theorem setupEnvironmentForLauncherMain_round_trip {σ : Type} (l : ExecutorLauncher)
    (s : Proc σ) :
    ∃ s1, setupEnvironmentForLauncherMain l s = .ok () s1 ∧ s1.world = s.world ∧
      (∃ evs, s1.log = s.log ++ evs ∧ ∀ e ∈ evs, e.isSetenv = true) ∧
      getenv s1.env "MESOS_FRAMEWORK_ID".toList = some (c_str l.frameworkId) ∧
      getenv s1.env "MESOS_EXECUTOR_URI".toList = some (c_str l.executorUri) ∧
      getenv s1.env "MESOS_USER".toList = some (c_str l.user) ∧
      getenv s1.env "MESOS_WORK_DIRECTORY".toList = some (c_str l.workDirectory) ∧
      getenv s1.env "MESOS_SLAVE_PID".toList = some (c_str l.slavePid) ∧
      getenv s1.env "MESOS_HOME".toList = some (c_str l.mesosHome) ∧
      getenv s1.env "MESOS_HADOOP_HOME".toList = some (c_str l.hadoopHome) ∧
      getenv s1.env "MESOS_REDIRECT_IO".toList =
        some (if ExecutorLauncher.redirectIO l then "1".toList else "0".toList) ∧
      getenv s1.env "MESOS_SWITCH_USER".toList =
        some (if l.shouldSwitchUser then "1".toList else "0".toList) ∧
      (NUL ∉ l.frameworkId → NUL ∉ l.executorUri → NUL ∉ l.user → NUL ∉ l.workDirectory →
        NUL ∉ l.slavePid → NUL ∉ l.mesosHome → NUL ∉ l.hadoopHome →
        getenv s1.env "MESOS_FRAMEWORK_ID".toList = some l.frameworkId ∧
        getenv s1.env "MESOS_EXECUTOR_URI".toList = some l.executorUri ∧
        getenv s1.env "MESOS_USER".toList = some l.user ∧
        getenv s1.env "MESOS_WORK_DIRECTORY".toList = some l.workDirectory ∧
        getenv s1.env "MESOS_SLAVE_PID".toList = some l.slavePid ∧
        getenv s1.env "MESOS_HOME".toList = some l.mesosHome ∧
        getenv s1.env "MESOS_HADOOP_HOME".toList = some l.hadoopHome ∧
        readBack s1.env = some l.fields) := by
  obtain ⟨s0, h0, hw0⟩ := setupEnvironment_ok l s
  obtain ⟨evs0, hlog0, hP0⟩ := setupEnvironment_appends l s
  rw [h0] at hlog0
  simp only [state_ok] at hlog0
  have hc1 : c_str "MESOS_FRAMEWORK_ID".toList = "MESOS_FRAMEWORK_ID".toList := by decide
  have hc2 : c_str "MESOS_EXECUTOR_URI".toList = "MESOS_EXECUTOR_URI".toList := by decide
  have hc3 : c_str "MESOS_USER".toList = "MESOS_USER".toList := by decide
  have hc4 : c_str "MESOS_WORK_DIRECTORY".toList = "MESOS_WORK_DIRECTORY".toList := by decide
  have hc5 : c_str "MESOS_SLAVE_PID".toList = "MESOS_SLAVE_PID".toList := by decide
  have hc6 : c_str "MESOS_HOME".toList = "MESOS_HOME".toList := by decide
  have hc7 : c_str "MESOS_HADOOP_HOME".toList = "MESOS_HADOOP_HOME".toList := by decide
  have hc8 : c_str "MESOS_REDIRECT_IO".toList = "MESOS_REDIRECT_IO".toList := by decide
  have hc9 : c_str "MESOS_SWITCH_USER".toList = "MESOS_SWITCH_USER".toList := by decide
  have hf1 : c_str (if ExecutorLauncher.redirectIO l then "1".toList else "0".toList) =
      (if ExecutorLauncher.redirectIO l then "1".toList else "0".toList) := by
    cases ExecutorLauncher.redirectIO l <;> decide
  have hf2 : c_str (if l.shouldSwitchUser then "1".toList else "0".toList) =
      (if l.shouldSwitchUser then "1".toList else "0".toList) := by
    cases l.shouldSwitchUser <;> decide
  simp only [setupEnvironmentForLauncherMain, bind_apply, h0, setenv_apply, hc1, hc2, hc3, hc4,
    hc5, hc6, hc7, hc8, hc9, hf1, hf2]
  refine ⟨_, rfl, hw0, ?_, ?_⟩
  · refine ⟨evs0 ++ [Event.setenv "MESOS_FRAMEWORK_ID".toList (c_str l.frameworkId) true,
      Event.setenv "MESOS_EXECUTOR_URI".toList (c_str l.executorUri) true,
      Event.setenv "MESOS_USER".toList (c_str l.user) true,
      Event.setenv "MESOS_WORK_DIRECTORY".toList (c_str l.workDirectory) true,
      Event.setenv "MESOS_SLAVE_PID".toList (c_str l.slavePid) true,
      Event.setenv "MESOS_HOME".toList (c_str l.mesosHome) true,
      Event.setenv "MESOS_HADOOP_HOME".toList (c_str l.hadoopHome) true,
      Event.setenv "MESOS_REDIRECT_IO".toList
        (if ExecutorLauncher.redirectIO l then "1".toList else "0".toList) true,
      Event.setenv "MESOS_SWITCH_USER".toList
        (if l.shouldSwitchUser then "1".toList else "0".toList) true], ?_, ?_⟩
    · simp only [hlog0, List.append_assoc, List.cons_append, List.nil_append]
    · intro e he
      rcases List.mem_append.mp he with h | h
      · exact hP0 e h
      · simp only [List.mem_cons, List.mem_singleton, List.not_mem_nil, or_false] at h
        rcases h with h | h | h | h | h | h | h | h | h <;> rw [h] <;> rfl
  · have hg1 := getenv_setenvOverwrite_valid "MESOS_FRAMEWORK_ID".toList (by decide)
    have hg2 := getenv_setenvOverwrite_valid "MESOS_EXECUTOR_URI".toList (by decide)
    have hg3 := getenv_setenvOverwrite_valid "MESOS_USER".toList (by decide)
    have hg4 := getenv_setenvOverwrite_valid "MESOS_WORK_DIRECTORY".toList (by decide)
    have hg5 := getenv_setenvOverwrite_valid "MESOS_SLAVE_PID".toList (by decide)
    have hg6 := getenv_setenvOverwrite_valid "MESOS_HOME".toList (by decide)
    have hg7 := getenv_setenvOverwrite_valid "MESOS_HADOOP_HOME".toList (by decide)
    have hg8 := getenv_setenvOverwrite_valid "MESOS_REDIRECT_IO".toList (by decide)
    have hg9 := getenv_setenvOverwrite_valid "MESOS_SWITCH_USER".toList (by decide)
    have hvals : ∀ env : Env,
        let env9 := setenvOverwrite (setenvOverwrite (setenvOverwrite (setenvOverwrite
          (setenvOverwrite (setenvOverwrite (setenvOverwrite (setenvOverwrite (setenvOverwrite
          env "MESOS_FRAMEWORK_ID".toList (c_str l.frameworkId))
          "MESOS_EXECUTOR_URI".toList (c_str l.executorUri))
          "MESOS_USER".toList (c_str l.user))
          "MESOS_WORK_DIRECTORY".toList (c_str l.workDirectory))
          "MESOS_SLAVE_PID".toList (c_str l.slavePid))
          "MESOS_HOME".toList (c_str l.mesosHome))
          "MESOS_HADOOP_HOME".toList (c_str l.hadoopHome))
          "MESOS_REDIRECT_IO".toList
            (if ExecutorLauncher.redirectIO l then "1".toList else "0".toList))
          "MESOS_SWITCH_USER".toList (if l.shouldSwitchUser then "1".toList else "0".toList)
        getenv env9 "MESOS_FRAMEWORK_ID".toList = some (c_str l.frameworkId) ∧
        getenv env9 "MESOS_EXECUTOR_URI".toList = some (c_str l.executorUri) ∧
        getenv env9 "MESOS_USER".toList = some (c_str l.user) ∧
        getenv env9 "MESOS_WORK_DIRECTORY".toList = some (c_str l.workDirectory) ∧
        getenv env9 "MESOS_SLAVE_PID".toList = some (c_str l.slavePid) ∧
        getenv env9 "MESOS_HOME".toList = some (c_str l.mesosHome) ∧
        getenv env9 "MESOS_HADOOP_HOME".toList = some (c_str l.hadoopHome) ∧
        getenv env9 "MESOS_REDIRECT_IO".toList =
          some (if ExecutorLauncher.redirectIO l then "1".toList else "0".toList) ∧
        getenv env9 "MESOS_SWITCH_USER".toList =
          some (if l.shouldSwitchUser then "1".toList else "0".toList) := by
      intro env
      simp +decide only [hg1, hg2, hg3, hg4, hg5, hg6, hg7, hg8, hg9, if_true, if_false,
        and_self]
    obtain ⟨v1, v2, v3, v4, v5, v6, v7, v8, v9⟩ := hvals s0.env
    refine ⟨v1, v2, v3, v4, v5, v6, v7, v8, v9, ?_⟩
    intro n1 n2 n3 n4 n5 n6 n7
    have w1 := v1.trans (congrArg some (c_str_eq_self _ n1))
    have w2 := v2.trans (congrArg some (c_str_eq_self _ n2))
    have w3 := v3.trans (congrArg some (c_str_eq_self _ n3))
    have w4 := v4.trans (congrArg some (c_str_eq_self _ n4))
    have w5 := v5.trans (congrArg some (c_str_eq_self _ n5))
    have w6 := v6.trans (congrArg some (c_str_eq_self _ n6))
    have w7 := v7.trans (congrArg some (c_str_eq_self _ n7))
    refine ⟨w1, w2, w3, w4, w5, w6, w7, ?_⟩
    unfold readBack
    rw [w1, w2, w3, w4, w5, w6, w7, v8, v9]
    cases hr : ExecutorLauncher.redirectIO l <;> cases hs : l.shouldSwitchUser <;>
      simp +decide [readFlag, ExecutorLauncher.fields, hr, hs]

theorem fetchExecutor_eq_untar {σ : Type} (os : OS σ) (l : ExecutorLauncher) (s s1 : Proc σ)
    (executor : Str) (hloc : localExecutor os l s = .ok executor s1)
    (htgz : tgzTest executor = true) : fetchExecutor os l s = untar os executor s1 := by
  rw [fetchExecutor_eq, bind_apply, hloc]
  simp only [htgz, if_true]

/-- C3, as stated, fails: on the simulated system with `chdir` refused, the
launcher of `pkg.tgz` extracts the archive, lists `.`, `..`, `pkg.tgz` and
`pkg`, reads every entry with `stat`, finds the one directory `pkg`, and yet
exits with `ChdirFailed` instead of returning `./executor`. -/
theorem fetchExecutor_single_directory_chdir_refused :
    (lockedOS.system "tar xzf 'pkg.tgz'".toList [] []).1 = 0 ∧
    lockedOS.opendir ".".toList ["pkg".toList] =
      some [".".toList, "..".toList, "pkg.tgz".toList, "pkg".toList] ∧
    (∀ e ∈ [".".toList, "..".toList, "pkg.tgz".toList, "pkg".toList],
      (lockedOS.stat e ["pkg".toList]).1 = 0) ∧
    candidates lockedOS ["pkg".toList]
      [".".toList, "..".toList, "pkg.tgz".toList, "pkg".toList] = ["pkg".toList] ∧
    fetchExecutor lockedOS archiveLauncher (emptyProc []) =
      .fatal ⟨ErrorKind.ChdirFailed, "Chdir failed", true⟩
        ⟨["pkg".toList], [],
          [Event.system "tar xzf 'pkg.tgz'".toList, Event.opendir ".".toList,
            Event.stat "pkg.tgz".toList, Event.stat "pkg".toList,
            Event.chdir "pkg".toList]⟩ := by
  refine ⟨by decide, by decide, by decide, by decide, ?_⟩
  rfl

/-- C3, amended: after a successful extraction of the local file `executor`,
with a listing `ents` of the current directory in which every entry other
than `.` and `..` can be read by `stat`: when exactly one entry is a
directory, `fetchExecutor` calls `chdir` on it and, if that call does not
fail, returns `./executor` (a failing `chdir` is fatal, `ChdirFailed`); when
no entry is a directory it exits with `NoExecutorDirectory`, and when two or
more are, with `AmbiguousExecutorDirectory`, in both cases in the world the
extraction left and with only `stat` calls after the listing, so without
changing directory.  A listing with the same entries in another order gives
the same value or exit, the same world and the same environment. -/
theorem fetchExecutor_single_directory {σ : Type} (os : OS σ) (l : ExecutorLauncher)
    (s s1 : Proc σ) (executor : Str) (ents : List Str)
    (hloc : localExecutor os l s = .ok executor s1)
    (htgz : tgzTest executor = true)
    (htar : (os.system ("tar xzf '".toList ++ executor ++ "'".toList) s1.env s1.world).1 = 0)
    (hlist : os.opendir ".".toList
      (os.system ("tar xzf '".toList ++ executor ++ "'".toList) s1.env s1.world).2 = some ents)
    (hstat : ∀ e ∈ ents, e ≠ ".".toList → e ≠ "..".toList →
      (os.stat e
        (os.system ("tar xzf '".toList ++ executor ++ "'".toList) s1.env s1.world).2).1 = 0) :
    let command := "tar xzf '".toList ++ executor ++ "'".toList
    let w := (os.system command s1.env s1.world).2
    let log := s1.log ++ [Event.system command, Event.opendir ".".toList]
    (∀ d, candidates os w ents = [d] →
      (¬ (os.chdir d w).1 < 0 →
        fetchExecutor os l s =
          .ok "./executor".toList
            ⟨(os.chdir d w).2, s1.env, log ++ statCalls ents ++ [Event.chdir d]⟩) ∧
      ((os.chdir d w).1 < 0 →
        fetchExecutor os l s =
          .fatal ⟨ErrorKind.ChdirFailed, "Chdir failed", true⟩
            ⟨(os.chdir d w).2, s1.env, log ++ statCalls ents ++ [Event.chdir d]⟩)) ∧
    (candidates os w ents = [] →
      fetchExecutor os l s =
        .fatal ⟨ErrorKind.NoExecutorDirectory,
            "Executor .tgz must contain a single directory", false⟩
          ⟨w, s1.env, log ++ statCalls ents⟩) ∧
    (2 ≤ (candidates os w ents).length →
      ∃ evs, fetchExecutor os l s =
          .fatal ⟨ErrorKind.AmbiguousExecutorDirectory,
              "Executor .tgz must contain a single directory", false⟩
            ⟨w, s1.env, log ++ evs⟩ ∧
        ∀ e ∈ evs, e.isStat = true) ∧
    (∀ (listing : Str → σ → Option (List Str)) (ents2 : List Str),
      listing ".".toList w = some ents2 → ents2.Perm ents →
      (fetchExecutor { os with opendir := listing } l s).forgetLog =
        (fetchExecutor os l s).forgetLog) := by
  intro command w log
  have hrun := fetchExecutor_eq_untar os l s s1 executor hloc htgz
  obtain ⟨hone, hzero, hmany⟩ := untar_listed os executor s1 ents htar hlist hstat
  refine ⟨?_, ?_, ?_, ?_⟩
  · intro d hd
    constructor
    · intro hc
      rw [hrun, hone d hd, if_neg hc]
    · intro hc
      rw [hrun, hone d hd, if_pos hc]
  · intro hd
    rw [hrun, hzero hd]
  · intro hd
    obtain ⟨evs, hevs, hst⟩ := hmany hd
    exact ⟨evs, by rw [hrun, hevs], hst⟩
  · intro listing ents2 hlist2 hperm
    have hloc2 : localExecutor { os with opendir := listing } l s = .ok executor s1 := hloc
    have hrun2 := fetchExecutor_eq_untar { os with opendir := listing } l s s1 executor hloc2 htgz
    have hstat2 : ∀ e ∈ ents2, e ≠ ".".toList → e ≠ "..".toList → (os.stat e w).1 = 0 :=
      fun e he => hstat e (hperm.mem_iff.mp he)
    obtain ⟨hone2, hzero2, hmany2⟩ :=
      untar_listed { os with opendir := listing } executor s1 ents2 htar hlist2 hstat2
    have hcand : (candidates os w ents2).Perm (candidates os w ents) := hperm.filter _
    rw [hrun, hrun2]
    cases hc : candidates os w ents with
    | nil =>
      have hc2 : candidates os w ents2 = [] := by
        rw [hc] at hcand
        exact hcand.eq_nil
      rw [hzero hc, hzero2 hc2]
      rfl
    | cons d rest =>
      cases rest with
      | nil =>
        have hc2 : candidates os w ents2 = [d] := by
          rw [hc] at hcand
          exact List.perm_singleton.mp hcand
        rw [hone d hc, hone2 d hc2]
        by_cases hch : (os.chdir d w).1 < 0
        · rw [if_pos hch, if_pos hch]
          rfl
        · rw [if_neg hch, if_neg hch]
          rfl
      | cons d2 rest2 =>
        have hlen : 2 ≤ (candidates os w ents).length := by
          rw [hc]
          simp
        have hlen2 : 2 ≤ (candidates os w ents2).length := by
          rw [hcand.length_eq]
          exact hlen
        obtain ⟨evs, hevs, _⟩ := hmany hlen
        obtain ⟨evs2, hevs2, _⟩ := hmany2 hlen2
        rw [hevs, hevs2]
        rfl

/-- The procedure `run` is its stages one after the other. -/
theorem run_eq {σ : Type} (os : OS σ) (l : ExecutorLauncher) :
    run os l =
      (createWorkingDirectory os l >>= fun _ =>
        enterWorkingDirectory os l >>= fun _ =>
          fetchExecutor os l >>= fun executor =>
            setupEnvironment l >>= fun _ =>
              dropPrivileges os l >>= fun _ => execute os executor) := by
  funext s
  simp only [run, enterWorkingDirectory, dropPrivileges, execute, bind_apply]
  cases h1 : createWorkingDirectory os l s with
  | fatal f s1 => rfl
  | replaced s1 => rfl
  | ok a s1 =>
    simp only [call_apply]
    by_cases hc : (os.chdir l.workDirectory s1.world).1 < 0
    · simp only [if_pos hc, bind_apply, fatalerror_apply]
    · simp only [if_neg hc, bind_apply, pure_apply]
      cases hr : ExecutorLauncher.redirectIO l with
      | false =>
        simp only [Bool.false_eq_true, if_false, bind_apply, pure_apply]
        cases h3 : fetchExecutor os l ⟨(os.chdir l.workDirectory s1.world).2, s1.env,
            s1.log ++ [Event.chdir l.workDirectory]⟩ with
        | fatal f s3 => rfl
        | replaced s3 => rfl
        | ok executor s3 =>
          simp only []
          cases h4 : setupEnvironment l s3 with
          | fatal f s4 => rfl
          | replaced s4 => rfl
          | ok c s4 =>
            simp only []
            cases hs : l.shouldSwitchUser with
            | false => simp only [Bool.false_eq_true, if_false, bind_apply, pure_apply]
            | true => simp only [if_true, bind_apply]
      | true =>
        simp only [if_true, bind_apply]
        cases h2 : redirectOutput os
          ⟨(os.chdir l.workDirectory s1.world).2, s1.env,
            s1.log ++ [Event.chdir l.workDirectory]⟩ with
        | fatal f s2 => rfl
        | replaced s2 => rfl
        | ok b s2 =>
          simp only []
          cases h3 : fetchExecutor os l s2 with
          | fatal f s3 => rfl
          | replaced s3 => rfl
          | ok executor s3 =>
            simp only []
            cases h4 : setupEnvironment l s3 with
            | fatal f s4 => rfl
            | replaced s4 => rfl
            | ok c s4 =>
              simp only []
              cases hs : l.shouldSwitchUser with
              | false => simp only [Bool.false_eq_true, if_false, bind_apply, pure_apply]
              | true => simp only [if_true, bind_apply]

/-! ## The order of the stages of `run` -/

theorem inStages_nil (Ps : List (Event → Prop)) : InStages Ps [] := by
  induction Ps with
  | nil => rfl
  | cons P Ps ih => exact ⟨[], [], rfl, by simp, ih⟩

theorem staged_bind {σ α β : Type} {P : Event → Prop} {Ps : List (Event → Prop)}
    {m : M σ α} {f : α → M σ β} (hm : Appends P m) (hf : ∀ a, Staged Ps (f a)) :
    Staged (P :: Ps) (m >>= f) := by
  intro s
  obtain ⟨evs, hlog, hP⟩ := hm s
  rw [bind_apply]
  cases h : m s with
  | ok a s1 =>
    rw [h] at hlog
    simp only [state_ok] at hlog
    obtain ⟨evs2, hlog2, hst⟩ := hf a s1
    exact ⟨evs ++ evs2, by simp only [hlog2, hlog, List.append_assoc], evs, evs2, rfl, hP, hst⟩
  | fatal e s1 =>
    rw [h] at hlog
    exact ⟨evs, hlog, evs, [], by simp, hP, inStages_nil Ps⟩
  | replaced s1 =>
    rw [h] at hlog
    exact ⟨evs, hlog, evs, [], by simp, hP, inStages_nil Ps⟩

theorem staged_single {σ α : Type} {P : Event → Prop} {m : M σ α} (hm : Appends P m) :
    Staged [P] m := by
  intro s
  obtain ⟨evs, hlog, hP⟩ := hm s
  exact ⟨evs, hlog, evs, [], by simp, hP, rfl⟩

theorem mkdirEach_appends {σ : Type} (os : OS σ) (paths : List Str) :
    Appends (fun e => e.isMkdir = true) (mkdirEach os paths) := by
  induction paths with
  | nil => exact appends_pure _ _
  | cons p ps ih =>
    unfold mkdirEach
    repeat' first
      | exact ih
      | exact appends_pure _ _
      | exact appends_fatalerror _ _ _
      | exact appends_call _ _ _ rfl
      | apply appends_bind
      | apply appends_ite
      | intro _

theorem createWorkingDirectory_appends {σ : Type} (os : OS σ) (l : ExecutorLauncher) :
    Appends (fun e => e.isMkdir = true) (createWorkingDirectory os l) := by
  rw [createWorkingDirectory_eq]
  exact mkdirEach_appends os _

theorem enterWorkingDirectory_appends {σ : Type} (os : OS σ) (l : ExecutorLauncher) :
    Appends (fun e => e.isEnter = true) (enterWorkingDirectory os l) := by
  unfold enterWorkingDirectory redirectOutput
  repeat' first
    | exact appends_pure _ _
    | exact appends_fatalerror _ _ _
    | exact appends_call _ _ _ rfl
    | apply appends_bind
    | apply appends_ite
    | intro _

theorem switchUser_appends {σ : Type} (os : OS σ) (l : ExecutorLauncher) :
    Appends (fun e => e.isSwitchUser = true) (switchUser os l) := by
  unfold switchUser
  refine appends_bind (appends_query _ _ _ rfl) (fun passwd => ?_)
  cases passwd with
  | none => exact appends_fatal _ _ _
  | some pw =>
    dsimp only
    repeat' first
      | exact appends_pure _ _
      | exact appends_fatalerror _ _ _
      | exact appends_call _ _ _ rfl
      | apply appends_bind
      | apply appends_ite
      | intro _

theorem dropPrivileges_appends {σ : Type} (os : OS σ) (l : ExecutorLauncher) :
    Appends (fun e => e.isSwitchUser = true ∧ l.shouldSwitchUser = true)
      (dropPrivileges os l) := by
  unfold dropPrivileges
  cases h : l.shouldSwitchUser with
  | false => exact appends_pure _ _
  | true =>
    simp only [if_true]
    exact appends_mono (switchUser_appends os l) (fun e he => ⟨he, trivial⟩)

theorem execute_appends {σ : Type} (os : OS σ) (executor : Str) :
    Appends (fun e => e = Event.execl executor [executor]) (execute os executor) := by
  unfold execute
  repeat' first
    | exact appends_fatalerror _ _ _
    | exact appends_execl _ _ _ _ rfl
    | apply appends_bind
    | intro _

/-- The calls of `run` come stage after stage. -/
theorem run_staged {σ : Type} (os : OS σ) (l : ExecutorLauncher) :
    Staged [fun e => e.isMkdir = true, fun e => e.isEnter = true, fun e => e.isFetch = true,
      fun e => e.isSetenv = true,
      fun e => e.isSwitchUser = true ∧ l.shouldSwitchUser = true,
      fun e => e.isExecl = true] (run os l) := by
  rw [run_eq]
  refine staged_bind (createWorkingDirectory_appends os l) (fun _ => ?_)
  refine staged_bind (enterWorkingDirectory_appends os l) (fun _ => ?_)
  refine staged_bind (fetchExecutor_appends os l) (fun executor => ?_)
  refine staged_bind (setupEnvironment_appends l) (fun _ => ?_)
  refine staged_bind (dropPrivileges_appends os l) (fun _ => ?_)
  exact staged_single (appends_mono (execute_appends os executor) (fun e he => by rw [he]; rfl))

/-- Where the event at an index of three runs of events lies. -/
theorem segment_of_index (A B C : List Event) (i : Nat) (a : Event)
    (h : (A ++ (B ++ C))[i]? = some a) :
    (i < A.length ∧ a ∈ A) ∨ (A.length ≤ i ∧ i < A.length + B.length ∧ a ∈ B) ∨
      (A.length + B.length ≤ i ∧ a ∈ C) := by
  by_cases h1 : i < A.length
  · rw [List.getElem?_append_left h1] at h
    exact Or.inl ⟨h1, List.getElem?_mem h⟩
  · rw [List.getElem?_append_right (Nat.le_of_not_lt h1)] at h
    by_cases h2 : i - A.length < B.length
    · rw [List.getElem?_append_left h2] at h
      exact Or.inr (Or.inl ⟨Nat.le_of_not_lt h1, by omega, List.getElem?_mem h⟩)
    · rw [List.getElem?_append_right (Nat.le_of_not_lt h2)] at h
      exact Or.inr (Or.inr ⟨by omega, List.getElem?_mem h⟩)

theorem early_event_kinds (e : Event)
    (h : e.isMkdir = true ∨ e.isEnter = true ∨ e.isFetch = true ∨ e.isSetenv = true) :
    e.isSetgid = false ∧ e.isSetuid = false ∧ e.isExecl = false := by
  cases e <;> simp [Event.isMkdir, Event.isEnter, Event.isFetch, Event.isSetenv,
    Event.isSetgid, Event.isSetuid, Event.isExecl] at h ⊢

theorem switchUser_event_kinds (e : Event) (h : e.isSwitchUser = true) :
    e.isSystem = false ∧ e.isSetenv = false ∧ e.isExecl = false := by
  cases e <;> simp [Event.isSwitchUser, Event.isSystem, Event.isSetenv, Event.isExecl] at h ⊢

theorem execl_event_kinds (e : Event) (h : e.isExecl = true) :
    e.isSetgid = false ∧ e.isSetuid = false ∧ e.isSystem = false ∧ e.isSetenv = false := by
  cases e <;> simp [Event.isExecl, Event.isSetgid, Event.isSetuid, Event.isSystem,
    Event.isSetenv] at h ⊢

/-- The calls of `run`, stage by stage. -/
theorem run_stages {σ : Type} (os : OS σ) (l : ExecutorLauncher) (s : Proc σ) :
    ∃ mk enter fetch envs priv ex,
      (run os l s).state.log = s.log ++ (mk ++ (enter ++ (fetch ++ (envs ++ (priv ++ ex))))) ∧
      (∀ e ∈ mk, e.isMkdir = true) ∧ (∀ e ∈ enter, e.isEnter = true) ∧
      (∀ e ∈ fetch, e.isFetch = true) ∧ (∀ e ∈ envs, e.isSetenv = true) ∧
      (∀ e ∈ priv, e.isSwitchUser = true) ∧ (∀ e ∈ ex, e.isExecl = true) ∧
      (l.shouldSwitchUser = false → priv = []) := by
  obtain ⟨evs, hlog, hst⟩ := run_staged os l s
  obtain ⟨mk, r1, h1, hmk, hst⟩ := hst
  obtain ⟨enter, r2, h2, henter, hst⟩ := hst
  obtain ⟨fetch, r3, h3, hfetch, hst⟩ := hst
  obtain ⟨envs, r4, h4, henvs, hst⟩ := hst
  obtain ⟨priv, r5, h5, hpriv, hst⟩ := hst
  obtain ⟨ex, r6, h6, hex, hst⟩ := hst
  have hr6 : r6 = [] := hst
  subst hr6 h6 h5 h4 h3 h2 h1
  refine ⟨mk, enter, fetch, envs, priv, ex, ?_, hmk, henter, hfetch, henvs,
    fun e he => (hpriv e he).1, hex, ?_⟩
  · rw [hlog, List.append_nil]
  · intro hno
    cases priv with
    | nil => rfl
    | cons e rest =>
      have := (hpriv e (List.mem_cons_self _ _)).2
      rw [hno] at this
      cases this

theorem execute_apply {σ : Type} (os : OS σ) (executor : Str) (s : Proc σ) :
    execute os executor s =
      if os.execl executor [executor] s.env s.world then
        .replaced ⟨s.world, s.env, s.log ++ [Event.execl executor [executor]]⟩
      else
        .fatal ⟨ErrorKind.ExecFailed, "Could not execute %s", true⟩
          ⟨s.world, s.env, s.log ++ [Event.execl executor [executor]]⟩ := by
  simp only [execute, bind_apply, execl]
  by_cases h : os.execl executor [executor] s.env s.world = true
  · simp only [if_pos h]
    rfl
  · simp only [if_neg h]
    rfl

/-- A sequence whose second part never returns never returns. -/
theorem bind_ne_ok {σ α β : Type} (m : M σ α) (f : α → M σ β)
    (hf : ∀ a s b s1, f a s ≠ .ok b s1) (s : Proc σ) (b : β) (s1 : Proc σ) :
    (m >>= f) s ≠ .ok b s1 := by
  rw [bind_apply]
  cases h : m s with
  | ok a s2 => exact hf a s2 b s1
  | fatal e s2 => simp
  | replaced s2 => simp

/-- The procedure `run` never returns. -/
theorem run_ne_ok {σ : Type} (os : OS σ) (l : ExecutorLauncher) (s : Proc σ) (a : Unit)
    (s1 : Proc σ) : run os l s ≠ .ok a s1 := by
  rw [run_eq]
  apply bind_ne_ok
  intro _ s2 b s3
  apply bind_ne_ok
  intro _ s4 b1 s5
  apply bind_ne_ok
  intro executor s6 b2 s7
  apply bind_ne_ok
  intro _ s8 b3 s9
  apply bind_ne_ok
  intro _ s10 b4 s11
  rw [execute_apply]
  split <;> simp

/-- C9: the calls of `run` come stage after stage: the `mkdir` calls, the
`chdir` into the working directory and the redirection, the calls of
`fetchExecutor`, the `setenv` calls, the calls of `switchUser` (none unless
`shouldSwitchUser`), the `execl` call.  So every `setgid` or `setuid` call
comes after every `system` and `setenv` call and before `execl`.  A fatal exit
of a stage is the exit of `run`, in the state that stage left, so nothing of a
later stage happens; with an unknown user the exit is `UnknownUser` in the
state `setupEnvironment` left, with only the lookup logged.  When every stage
returns, `execl` is called on the path `fetchExecutor` returned, with that
path as the only argument; the image is replaced, or `run` exits with
`ExecFailed`.  It never returns. -/
theorem run_stage_order {σ : Type} (os : OS σ) (l : ExecutorLauncher) (s : Proc σ) :
    (∃ mk enter fetch envs priv ex,
      (run os l s).state.log = s.log ++ (mk ++ (enter ++ (fetch ++ (envs ++ (priv ++ ex))))) ∧
      (∀ e ∈ mk, e.isMkdir = true) ∧ (∀ e ∈ enter, e.isEnter = true) ∧
      (∀ e ∈ fetch, e.isFetch = true) ∧ (∀ e ∈ envs, e.isSetenv = true) ∧
      (∀ e ∈ priv, e.isSwitchUser = true) ∧ (∀ e ∈ ex, e.isExecl = true) ∧
      (l.shouldSwitchUser = false → priv = [])) ∧
    (∀ evs, (run os l s).state.log = s.log ++ evs →
      ∀ (i j : Nat) (a b : Event), evs[i]? = some a → evs[j]? = some b →
        (a.isSetgid = true ∨ a.isSetuid = true) →
        ((b.isSystem = true ∨ b.isSetenv = true) → j < i) ∧ (b.isExecl = true → i < j)) ∧
    (∀ f s1, createWorkingDirectory os l s = .fatal f s1 → run os l s = .fatal f s1) ∧
    (∀ s1, createWorkingDirectory os l s = .ok () s1 →
      (∀ f s2, enterWorkingDirectory os l s1 = .fatal f s2 → run os l s = .fatal f s2) ∧
      (∀ s2, enterWorkingDirectory os l s1 = .ok () s2 →
        (∀ f s3, fetchExecutor os l s2 = .fatal f s3 → run os l s = .fatal f s3) ∧
        (∀ executor s3, fetchExecutor os l s2 = .ok executor s3 →
          ∃ s4, setupEnvironment l s3 = .ok () s4 ∧ s4.world = s3.world ∧
            (∀ f s5, dropPrivileges os l s4 = .fatal f s5 → run os l s = .fatal f s5) ∧
            (l.shouldSwitchUser = true → os.getpwnam l.user s4.world = none →
              run os l s =
                .fatal ⟨ErrorKind.UnknownUser, "failed to get username information for %s",
                    false⟩
                  ⟨s4.world, s4.env, s4.log ++ [Event.getpwnam l.user]⟩) ∧
            (∀ s5, dropPrivileges os l s4 = .ok () s5 →
              run os l s =
                if os.execl executor [executor] s5.env s5.world then
                  .replaced ⟨s5.world, s5.env, s5.log ++ [Event.execl executor [executor]]⟩
                else
                  .fatal ⟨ErrorKind.ExecFailed, "Could not execute %s", true⟩
                    ⟨s5.world, s5.env, s5.log ++ [Event.execl executor [executor]]⟩)))) ∧
    (∀ a s1, run os l s ≠ .ok a s1) := by
  refine ⟨run_stages os l s, ?_, ?_, ?_, run_ne_ok os l s⟩
  · intro evs hlog i j a b hi hj ha
    obtain ⟨mk, enter, fetch, envs, priv, ex, hlog1, hmk, henter, hfetch, henvs, hpriv, hex, _⟩ :=
      run_stages os l s
    rw [hlog] at hlog1
    have hevs : evs = (mk ++ enter ++ fetch ++ envs) ++ (priv ++ ex) := by
      rw [List.append_cancel_left hlog1]
      simp only [List.append_assoc]
    have hearly : ∀ e ∈ mk ++ enter ++ fetch ++ envs,
        e.isMkdir = true ∨ e.isEnter = true ∨ e.isFetch = true ∨ e.isSetenv = true := by
      intro e he
      simp only [List.mem_append] at he
      rcases he with ((h | h) | h) | h
      · exact Or.inl (hmk e h)
      · exact Or.inr (Or.inl (henter e h))
      · exact Or.inr (Or.inr (Or.inl (hfetch e h)))
      · exact Or.inr (Or.inr (Or.inr (henvs e h)))
    rw [hevs] at hi hj
    have hia := segment_of_index _ _ _ i a hi
    have hjb := segment_of_index _ _ _ j b hj
    have hi1 : (mk ++ enter ++ fetch ++ envs).length ≤ i ∧
        i < (mk ++ enter ++ fetch ++ envs).length + priv.length := by
      rcases hia with ⟨_, h⟩ | ⟨h1, h2, _⟩ | ⟨_, h⟩
      · have := early_event_kinds a (hearly a h)
        rcases ha with ha | ha <;> simp [ha] at this
      · exact ⟨h1, h2⟩
      · have := execl_event_kinds a (hex a h)
        rcases ha with ha | ha <;> simp [ha] at this
    constructor
    · intro hb
      rcases hjb with ⟨h, _⟩ | ⟨_, _, h⟩ | ⟨_, h⟩
      · omega
      · have := switchUser_event_kinds b (hpriv b h)
        rcases hb with hb | hb <;> simp [hb] at this
      · have := execl_event_kinds b (hex b h)
        rcases hb with hb | hb <;> simp [hb] at this
    · intro hb
      rcases hjb with ⟨_, h⟩ | ⟨_, _, h⟩ | ⟨h, _⟩
      · have := early_event_kinds b (hearly b h)
        simp [hb] at this
      · have := switchUser_event_kinds b (hpriv b h)
        simp [hb] at this
      · omega
  · intro f s1 h1
    rw [run_eq, bind_apply, h1]
  · intro s1 h1
    refine ⟨?_, ?_⟩
    · intro f s2 h2
      rw [run_eq, bind_apply, h1]
      simp only [bind_apply, h2]
    · intro s2 h2
      refine ⟨?_, ?_⟩
      · intro f s3 h3
        rw [run_eq, bind_apply, h1]
        simp only [bind_apply, h2, h3]
      · intro executor s3 h3
        obtain ⟨s4, h4, hw4⟩ := setupEnvironment_ok l s3
        refine ⟨s4, h4, hw4, ?_, ?_, ?_⟩
        · intro f s5 h5
          rw [run_eq, bind_apply, h1]
          simp only [bind_apply, h2, h3, h4, h5]
        · intro hsw hpw
          have h5 : switchUser os l s4 =
              .fatal ⟨ErrorKind.UnknownUser, "failed to get username information for %s", false⟩
                ⟨s4.world, s4.env, s4.log ++ [Event.getpwnam l.user]⟩ := by
            simp only [switchUser, bind_apply, query_apply, hpw, fatal_apply]
          rw [run_eq, bind_apply, h1]
          simp only [bind_apply, h2, h3, h4, dropPrivileges, hsw, if_true, h5]
        · intro s5 h5
          rw [run_eq, bind_apply, h1]
          simp only [bind_apply, h2, h3, h4, h5, execute_apply]

/-! ## The theorems at concrete inputs -/

/-- C1 at a concrete input: the reference `hdfs://store/a\\b.tgz` on the
simulated system. -/
theorem fetchExecutor_illegal_characters_witness :
    (backslash ∈ backslashLauncher.executorUri ∨ quote ∈ backslashLauncher.executorUri ∨
      NUL ∈ backslashLauncher.executorUri) ∧
    "hdfs://".toList <+: backslashLauncher.executorUri ∧
    ".tgz".toList <:+ backslashLauncher.executorUri ∧
    fetchExecutor simOS backslashLauncher (emptyProc []) =
      .fatal ⟨ErrorKind.InvalidReference, "Illegal characters in executor path", false⟩
        (emptyProc []) :=
  ⟨by decide, by decide, by decide,
    fetchExecutor_illegal_characters simOS backslashLauncher (emptyProc []) (by decide)⟩

/-- C3 at a concrete input: on the simulated system the archive `pkg.tgz`
extracts to the one directory `pkg`, which is entered. -/
theorem fetchExecutor_single_directory_witness :
    fetchExecutor simOS archiveLauncher (emptyProc []) =
      .ok "./executor".toList
        ⟨["pkg".toList], [],
          [Event.system "tar xzf 'pkg.tgz'".toList, Event.opendir ".".toList,
            Event.stat "pkg.tgz".toList, Event.stat "pkg".toList,
            Event.chdir "pkg".toList]⟩ :=
  ((fetchExecutor_single_directory simOS archiveLauncher (emptyProc []) (emptyProc [])
    "pkg.tgz".toList [".".toList, "..".toList, "pkg.tgz".toList, "pkg".toList]
    rfl (by decide) (by decide) rfl (by decide)).1 "pkg".toList (by decide)).1 (by decide)

/-- C6 (amended) at a concrete input: the parameters `env.FOO -> bar`,
`other -> x` and `env.EMPTY ->` (empty), with `mesosHome` set. -/
theorem setupEnvironment_exports_params_witness :
    (archiveLauncher.params.map Prod.fst).Nodup ∧
    (∀ kv ∈ archiveLauncher.params, NUL ∉ kv.1) ∧
    getenv (setupEnvironment archiveLauncher (emptyProc ())).state.env "FOO".toList =
      some "bar".toList ∧
    getenv (setupEnvironment archiveLauncher (emptyProc ())).state.env "MESOS_HOME".toList =
      some "/opt/mesos".toList :=
  ⟨by decide, by decide,
    ((setupEnvironment_exports_params archiveLauncher (emptyProc ()) (by decide) (by decide)).1
      "FOO".toList "bar".toList (by decide) (by decide) (by decide) (by decide) (by decide)
      (Or.inl (by decide))).2 (by decide),
    (setupEnvironment_exports_params archiveLauncher (emptyProc ()) (by decide)
      (by decide)).2.2.2.2 (by decide)⟩

/-- C8 (amended) at a concrete input: the reference `hdfs://store/pkg.tgz`
with `hadoopHome` set to `/opt/hadoop`, on the simulated system. -/
theorem fetchExecutor_hdfs_command_witness :
    (backslash ∉ hdfsLauncher.executorUri ∧ quote ∉ hdfsLauncher.executorUri ∧
      NUL ∉ hdfsLauncher.executorUri) ∧
    "hdfs://".toList <+: hdfsLauncher.executorUri ∧
    (simOS.basename hdfsLauncher.executorUri).2 = hdfsLauncher.executorUri ∧
    localExecutor simOS hdfsLauncher (emptyProc []) =
      .ok "./pkg.tgz".toList
        ⟨[], [],
          [Event.system
            "/opt/hadoop/bin/hadoop fs -copyToLocal 'hdfs://store/pkg.tgz' './pkg.tgz'".toList,
            Event.chmod "./pkg.tgz".toList 0o755]⟩ := by
  obtain ⟨client, h1, _, _, h, _⟩ :=
    fetchExecutor_hdfs_command simOS hdfsLauncher (emptyProc []) (by decide) (by decide)
      (by decide)
  have hc : client = "/opt/hadoop/bin/hadoop".toList := h1 (by decide)
  subst hc
  exact ⟨by decide, by decide, by decide, (h.2.2.2 (by decide) (by decide)).1⟩

/-- A local executor, no switch of user: the working directory is made and
entered, the environment exported, and the image replaced by `/bin/true`. -/
theorem run_local_executor :
    run simOS portLauncher (emptyProc []) =
      .replaced ⟨["/tmp".toList, "/tmp/work".toList],
        [("LIBPROCESS_PORT".toList, "0".toList),
          ("MESOS_FRAMEWORK_ID".toList, "framework-1".toList),
          ("MESOS_SLAVE_PID".toList, "slave@10.0.0.1:5051".toList)],
        [Event.mkdir "/tmp".toList 0o755, Event.mkdir "/tmp/work".toList 0o755,
          Event.chdir "/tmp/work".toList,
          Event.setenv "LIBPROCESS_PORT".toList "5050".toList true,
          Event.setenv "MESOS_SLAVE_PID".toList "slave@10.0.0.1:5051".toList true,
          Event.setenv "MESOS_FRAMEWORK_ID".toList "framework-1".toList true,
          Event.setenv "LIBPROCESS_PORT".toList "0".toList true,
          Event.execl "/bin/true".toList ["/bin/true".toList]]⟩ := by
  rfl

/-- An archive with one directory, the user `alice`: the archive is
extracted, the directory entered, the environment exported, the group then
the user set, and the image replaced by `./executor`. -/
theorem run_archive_as_user :
    (run simOS archiveLauncher (emptyProc [])).state.log =
      [Event.mkdir "/tmp".toList 0o755, Event.mkdir "/tmp/work".toList 0o755,
        Event.chdir "/tmp/work".toList, Event.system "tar xzf 'pkg.tgz'".toList,
        Event.opendir ".".toList, Event.stat "pkg.tgz".toList, Event.stat "pkg".toList,
        Event.chdir "pkg".toList, Event.setenv "FOO".toList "bar".toList true,
        Event.setenv "EMPTY".toList "".toList true,
        Event.setenv "MESOS_SLAVE_PID".toList "slave@10.0.0.1:5051".toList true,
        Event.setenv "MESOS_FRAMEWORK_ID".toList "framework-1".toList true,
        Event.setenv "LIBPROCESS_PORT".toList "0".toList true,
        Event.setenv "MESOS_HOME".toList "/opt/mesos".toList true,
        Event.getpwnam "alice".toList, Event.setgid 1000, Event.setuid 1000,
        Event.execl "./executor".toList ["./executor".toList]] ∧
    ∃ s, run simOS archiveLauncher (emptyProc []) = .replaced s :=
  ⟨rfl, _, rfl⟩

/-- An archive on HDFS, an unknown user: the file is copied, made executable
and extracted, the environment exported, and the launcher exits with
`UnknownUser` after the lookup, with no `setgid`, `setuid` or `execl`. -/
theorem run_unknown_user :
    (run simOS hdfsLauncher (emptyProc [])).state.log =
      [Event.mkdir "/var".toList 0o755, Event.mkdir "/var/work".toList 0o755,
        Event.mkdir "/var/work/f1".toList 0o755, Event.chdir "/var/work/f1".toList,
        Event.freopen "stdout".toList "w".toList Stream.stdout,
        Event.freopen "stderr".toList "w".toList Stream.stderr,
        Event.system
          "/opt/hadoop/bin/hadoop fs -copyToLocal 'hdfs://store/pkg.tgz' './pkg.tgz'".toList,
        Event.chmod "./pkg.tgz".toList 0o755, Event.system "tar xzf './pkg.tgz'".toList,
        Event.opendir ".".toList, Event.stat "pkg.tgz".toList, Event.stat "pkg".toList,
        Event.chdir "pkg".toList,
        Event.setenv "MESOS_SLAVE_PID".toList "slave@10.0.0.1:5051".toList true,
        Event.setenv "MESOS_FRAMEWORK_ID".toList "framework-1".toList true,
        Event.setenv "LIBPROCESS_PORT".toList "0".toList true,
        Event.getpwnam "nosuchuser".toList] ∧
    ∃ s, run simOS hdfsLauncher (emptyProc []) =
      .fatal ⟨ErrorKind.UnknownUser, "failed to get username information for %s", false⟩ s :=
  ⟨rfl, _, rfl⟩

end Launcher
